import Mathlib

/-!
Verification of the purchasing-ledger UI core (satinalma-ui).

The repository holds two near-duplicate React applications:
* variant 1: `src/src/App.jsx` (namespace `V1` below);
* variant 2: `src/unnamed/part_000` (namespace `V2` below).

Shallow-embedding conventions:
* JavaScript numbers (IEEE doubles) are idealised as exact rationals `ℚ`;
  all arithmetic in the embedding is exact.
* A JavaScript value that may be a string or a number is modelled by `JSVal`.
* The JS builtins `String(number)` and `Number(string)` are modelled by
  `jsStr` and `jsNumber`; see their doc comments for the idealisations.
* React state (the `useState` collections `invoices` and `lines`) is modelled
  by an explicit state record threaded through the store operations; a call
  to `alert(...)` followed by `return` is modelled by an `Option String`
  result component carrying the alert message.
-/

set_option maxRecDepth 2000

namespace SatinalmaUI

/-- A JavaScript value that is either a string or a (finite) number. -/
inductive JSVal where
  | str (s : String)
  | num (q : ℚ)
deriving DecidableEq

/-- Numeric value of a digit character (`'0'` ↦ 0, …, `'9'` ↦ 9). -/
def charVal (c : Char) : ℕ := c.toNat - 48

/-- Value of a list of decimal digit characters, most significant first. -/
def natVal (l : List Char) : ℕ := l.foldl (fun a c => 10 * a + charVal c) 0

/-- The decimal digit character for `n < 10` (junk otherwise). -/
def digitChar : ℕ → Char
  | 0 => '0' | 1 => '1' | 2 => '2' | 3 => '3' | 4 => '4'
  | 5 => '5' | 6 => '6' | 7 => '7' | 8 => '8' | 9 => '9'
  | _ => '*'

/-- Decimal digit characters of `n`, fuel-based accumulator version (the fuel
bounds the recursion depth structurally; `fuel ≥ n` always suffices). -/
def natDigitsAux : ℕ → ℕ → List Char → List Char
  | 0, n, acc => digitChar n :: acc
  | fuel + 1, n, acc =>
    if n < 10 then digitChar n :: acc
    else natDigitsAux fuel (n / 10) (digitChar (n % 10) :: acc)

/-- Decimal digit characters of `n`, most significant first; `natDigits 0 = ['0']`. -/
def natDigits (n : ℕ) : List Char := natDigitsAux n n []

/-- Pad a digit list on the left with `'0'` up to length `k`. -/
def padZeros (k : ℕ) (l : List Char) : List Char :=
  List.replicate (k - l.length) '0' ++ l

/-- JavaScript `String.prototype.trim`: strip leading and trailing whitespace. -/
def jsTrim (l : List Char) : List Char :=
  ((l.dropWhile Char.isWhitespace).reverse.dropWhile Char.isWhitespace).reverse

/-- `trim` on strings (JS `String(x).trim()`). -/
def trimStr (s : String) : String := String.mk (jsTrim s.data)

/-- Index of the last occurrence of `c` (JS `lastIndexOf`; `none` for JS `-1`). -/
def lastIdx? : List Char → Char → Option ℕ
  | [], _ => none
  | a :: rest, c =>
    match lastIdx? rest c with
    | some i => some (i + 1)
    | none => if a = c then some 0 else none

/-- Replace the first occurrence of `a` by `b` (JS `replace(a, b)` on strings). -/
def replaceFirst : List Char → Char → Char → List Char
  | [], _, _ => []
  | c :: r, a, b => if c = a then b :: r else c :: replaceFirst r a b

/-- `clamp` from both variants: `Math.min(max, Math.max(min, n))`. -/
def clamp (n lo hi : ℚ) : ℚ := min hi (max lo n)

/-- The two separator characters recognised by the smart parser. -/
def isSep (c : Char) : Bool := c == '.' || c == ','

/-- Value of the decimal literal `±(d1 "." d2) e^exp` as an exact rational:
`sgn * (natVal d1 * 10^|d2| + natVal d2) / 10^|d2|`, scaled by the exponent.
This is how every digit string assembled by the parsers below is converted
to a number. -/
def decLitVal (sgn : ℤ) (d1 d2 : List Char) (e : ℤ) : ℚ :=
  Rat.divInt (sgn * (natVal d1 * 10 ^ d2.length + natVal d2) * 10 ^ e.toNat)
    (10 ^ (d2.length + (-e).toNat))

/-- Optional exponent suffix of a JS number literal: empty, or `e`/`E`, an
optional sign, and at least one digit with nothing after it. -/
def jsExpVal : List Char → Option ℤ
  | [] => some 0
  | c :: r =>
    if c = 'e' ∨ c = 'E' then
      let p : ℤ × List Char :=
        if r.head? = some '+' then (1, r.tail)
        else if r.head? = some '-' then (-1, r.tail)
        else (1, r)
      let ed := p.2.takeWhile Char.isDigit
      if ed.length = 0 ∨ (p.2.dropWhile Char.isDigit).length ≠ 0 then none
      else some (p.1 * natVal ed)
    else none

/-- JS `Number(string)`, idealised over `ℚ`: optional sign, decimal digits with
at most one `'.'`, and an optional `e`/`E` exponent; any other shape (JS `NaN`,
and the hexadecimal/octal/binary and `Infinity` forms, all of which the
applications' number pipelines map to 0 anyway) yields 0. -/
def jsNumber (s0 : String) : ℚ :=
  let t := jsTrim s0.data
  if t.length = 0 then 0
  else
    let p : ℤ × List Char :=
      if t.head? = some '+' then (1, t.tail)
      else if t.head? = some '-' then (-1, t.tail)
      else (1, t)
    let d1 := p.2.takeWhile Char.isDigit
    let r1 := p.2.dropWhile Char.isDigit
    if r1.length = 0 then (if d1.length = 0 then 0 else decLitVal p.1 d1 [] 0)
    else if r1.head? = some '.' then
      let d2 := r1.tail.takeWhile Char.isDigit
      let r3 := r1.tail.dropWhile Char.isDigit
      if d1.length = 0 ∧ d2.length = 0 then 0
      else
        match jsExpVal r3 with
        | some e => decLitVal p.1 d1 d2 e
        | none => 0
    else
      if d1.length = 0 then 0
      else
        match jsExpVal r1 with
        | some e => decLitVal p.1 d1 [] e
        | none => 0

/-- Digit characters of `x.toFixed(k)` without the sign: the magnitude
`a = |x|` is rounded half-up to `k` decimals — `m = ⌊a * 10^k + 1/2⌋`,
computed as `(2 * a.num * 10^k + a.den) / (2 * a.den)` in `ℕ` — then written
as integer digits, `'.'`, and exactly `k` fractional digits. -/
def toFixedDigits (x : ℚ) (k : ℕ) : List Char :=
  let a := if x < 0 then -x else x
  let m := (2 * a.num.toNat * 10 ^ k + a.den) / (2 * a.den)
  natDigits (m / 10 ^ k) ++ '.' :: padZeros k (natDigits (m % 10 ^ k))

/-- The regex replacement `replace(/\.?0+$/, "")`: if the string ends in `'0'`,
drop the maximal run of trailing zeros together with a `'.'` immediately
before the run. -/
def trimFixed (l : List Char) : List Char :=
  if l.getLast? = some '0' then
    let r := l.reverse.dropWhile (fun c => c == '0')
    (if r.head? = some '.' then r.tail else r).reverse
  else l

/-- The smallest `k ≤ 17` for which `q * 10 ^ k` is an integer (equivalently,
for `q` in lowest terms, `q.den ∣ 10 ^ k`), if any. -/
def decExp? (q : ℚ) : Option ℕ :=
  (List.range 18).find? fun k => q.den ∣ 10 ^ k

/-- JS `String(number)`, idealised over `ℚ`: when the value has a terminating
decimal expansion of at most 17 places (every value produced by the
applications' pipelines from decimal inputs does, in the exact-rational
idealisation), print it exactly with `'.'` as decimal separator and no
trailing zeros; otherwise fall back to the 17-decimal rounded rendering.
The exponent forms JS uses for magnitudes ≥ 1e21 or < 1e-7 are not
modelled. -/
def jsStr (q : ℚ) : String :=
  let a := if q < 0 then -q else q
  let body : List Char :=
    match decExp? a with
    | some k =>
      let m := a.num.toNat * 10 ^ k / a.den
      natDigits (m / 10 ^ k) ++
        (if k = 0 then [] else '.' :: padZeros k (natDigits (m % 10 ^ k)))
    | none => trimFixed (toFixedDigits a 17)
  String.mk ((if q < 0 then ['-'] else []) ++ body)

/-- The results of `calcLine` (identical record shape in both variants). -/
structure LineComputed where
  q : ℚ
  up : ℚ
  disc : ℚ
  vat : ℚ
  unitNet : ℚ
  unitVatIncl : ℚ
  totalNet : ℚ
  totalVatIncl : ℚ
  vatAmount : ℚ
deriving DecidableEq

/-- An invoice record (identical shape in both variants): `tevfikatRate` and
`discountTotal` are stored as numbers by every writer. -/
structure Invoice where
  id : String
  invoiceNo : String
  date : String
  supplierName : String
  tevfikatRate : ℚ
  discountTotal : ℚ
deriving DecidableEq

/-- The `share` sequence of the discount-distribution loop shared by
`distributeInvoiceDiscount` and `saveInvoiceCreate` in both variants:
every line but the last gets `discountTotal * w / sumW`, the last gets
`discountTotal - allocated` where `alloc` accumulates the earlier shares. -/
def allocShares (D sumW : ℚ) : List ℚ → ℚ → List ℚ
  | [], _ => []
  | [_], alloc => [D - alloc]
  | w :: w2 :: ws, alloc =>
    D * w / sumW :: allocShares D sumW (w2 :: ws) (alloc + D * w / sumW)

namespace V1

/-- Core of `parseSmartNumber` (variant 1) on the character list left after
whitespace removal, sign extraction and the `[^\d.,]` filter; `sgn` is the
extracted sign (±1). The split-based thousands test
`parts.length === 2 && parts[1].length === 3 && parts[0].length ∈ [1,3]`
is rendered as: exactly one occurrence of the separator, at index `d` with
`0 < d ≤ 3`, followed by exactly 3 characters. The reassembled literal
`sign + (intPart or "0") + "." + fracPart` is valued by `decLitVal`. -/
def parseSmartCore (s : List Char) (sgn : ℤ) : ℚ :=
  let lastDot := lastIdx? s '.'
  let lastComma := lastIdx? s ','
  let decSep : Option Char :=
    match lastDot, lastComma with
    | some d, some c => some (if c < d then '.' else ',')
    | some d, none =>
      if s.count '.' = 1 ∧ (s.drop (d + 1)).length = 3 ∧ 0 < d ∧ d ≤ 3 then none
      else some '.'
    | none, some c =>
      if s.count ',' = 1 ∧ (s.drop (c + 1)).length = 3 ∧ 0 < c ∧ c ≤ 3 then none
      else some ','
    | none, none => none
  match decSep with
  | some sep =>
    let idx := (lastIdx? s sep).getD 0
    let intP := (s.take idx).filter (fun c => !isSep c)
    let fracP := (s.drop (idx + 1)).filter (fun c => !isSep c)
    decLitVal sgn intP fracP 0
  | none =>
    let intP := s.filter (fun c => !isSep c)
    decLitVal sgn intP [] 0

/-- `parseSmartNumber` (variant 1, `src/src/App.jsx`) on string input. -/
def parseSmartStr (s0 : String) : ℚ :=
  if jsTrim s0.data = [] then 0
  else
    let s1 := s0.data.filter (fun c => !c.isWhitespace)
    let p : ℤ × List Char :=
      if s1.head? = some '-' then (-1, s1.tail) else (1, s1)
    let s := p.2.filter (fun c => c.isDigit || isSep c)
    if s = [] then 0 else parseSmartCore s p.1

/-- `parseSmartNumber` (variant 1): numbers pass through (always finite in the
rational idealisation), strings are parsed. -/
def parseSmartNumber : JSVal → ℚ
  | .num q => q
  | .str s => parseSmartStr s

/-- `toNumber` (variant 1) is an alias for `parseSmartNumber`. -/
def toNumber : JSVal → ℚ := parseSmartNumber

/-- `formatForInput` (variant 1): `toFixed(maxDecimals)`, trailing zeros (and a
bare trailing `'.'`) stripped by `replace(/\.?0+$/, "")`, then the single
remaining `'.'` replaced by `','`. -/
def formatForInput (n : JSVal) (maxDecimals : ℕ := 6) : String :=
  let x := toNumber n
  let t := trimFixed (toFixedDigits x maxDecimals)
  String.mk ((if x < 0 then ['-'] else []) ++ t.map fun c => if c = '.' then ',' else c)

/-- `calcLine` (variant 1). -/
def calcLine (qty unitPrice discountRate vatRate : JSVal) : LineComputed :=
  let q := max 0 (toNumber qty)
  let up := max 0 (toNumber unitPrice)
  let disc := clamp (toNumber discountRate) 0 100
  let vat := clamp (toNumber vatRate) 0 100
  let unitNet := up * (1 - disc / 100)
  let unitVatIncl := unitNet * (1 + vat / 100)
  let totalNet := unitNet * q
  let totalVatIncl := unitVatIncl * q
  let vatAmount := totalVatIncl - totalNet
  ⟨q, up, disc, vat, unitNet, unitVatIncl, totalNet, totalVatIncl, vatAmount⟩

/-- An invoice line / line draft of variant 1: every numeric field is stored
as a raw string (see `SAMPLE`, `saveInvoiceLineDraft`, `saveInvoiceCreate`). -/
structure Line where
  id : String
  invoiceId : String
  invoiceItem : String
  qty : String
  unitType : String
  unitPrice : String
  discountRate : String
  vatRate : String
deriving DecidableEq

/-- `calcLine` applied to a stored line / draft of variant 1. -/
def calcLineOf (d : Line) : LineComputed :=
  calcLine (.str d.qty) (.str d.unitPrice) (.str d.discountRate) (.str d.vatRate)

/-- `deriveFromUnitNet` (variant 1): back-solve the discount rate from an
edited discounted unit price, storing results with `String(...)`. -/
def deriveFromUnitNet (draft : Line) (nextUnitNet : JSVal) : Line :=
  let unitNet := max 0 (toNumber nextUnitNet)
  let up := max 0 (toNumber (.str draft.unitPrice))
  if 0 < up then
    let disc := 100 * (1 - unitNet / up)
    if disc < 0 then { draft with unitPrice := jsStr unitNet, discountRate := "0" }
    else { draft with discountRate := jsStr (clamp disc 0 100) }
  else { draft with unitPrice := jsStr unitNet, discountRate := "0" }

/-- `deriveFromUnitVatIncl` (variant 1). -/
def deriveFromUnitVatIncl (draft : Line) (nextUnitVatIncl : JSVal) : Line :=
  let vat := clamp (toNumber (.str draft.vatRate)) 0 100
  let uvi := max 0 (toNumber nextUnitVatIncl)
  let denom := 1 + vat / 100
  let unitNet := if 0 < denom then uvi / denom else uvi
  deriveFromUnitNet draft (.num unitNet)

/-- The in-memory store of variant 1. -/
structure AppState where
  invoices : List Invoice
  lines : List Line
deriving DecidableEq

/-- Pre-discount weight of a line (variant 1):
`Math.max(0, toNumber(unitPrice)) * Math.max(0, toNumber(qty))`. -/
def lineWeight (ln : Line) : ℚ :=
  max 0 (toNumber (.str ln.unitPrice)) * max 0 (toNumber (.str ln.qty))

/-- The update step of the allocation loop (variant 1): each line is paired
with its `share` from `allocShares` and its discount rate is rewritten to
`String(clamp((share / gross) * 100, 0, 100))` (0 if its weight is 0). -/
def allocLines (D sumW : ℚ) (lns : List Line) : List Line :=
  (lns.zip (allocShares D sumW (lns.map lineWeight) 0)).map fun p =>
    let w := lineWeight p.1
    let rate := if 0 < w then p.2 / w * 100 else 0
    { p.1 with discountRate := jsStr (clamp rate 0 100) }

/-- `distributeInvoiceDiscount` (variant 1): validation alerts leave the state
unchanged; otherwise the invoice's lines are rewritten via `allocLines`
(`setLines` replaces by id through a `Map`, i.e. last write per id wins). -/
def distributeInvoiceDiscount (st : AppState) (invoiceId : String)
    (discountTotal : ℚ) : Option String × AppState :=
  let invLines := st.lines.filter (fun x => x.invoiceId == invoiceId)
  if invLines.length = 0 then (some "Faturada kalem yok.", st)
  else
    let sumW := (invLines.map lineWeight).foldl (· + ·) 0
    if sumW ≤ 0 then (some "Dağıtım için kalem tutarları 0'dan büyük olmalıdır.", st)
    else
      let updated := allocLines discountTotal sumW invLines
      (none, { st with lines := st.lines.map fun x =>
        match (updated.filter (fun u => u.id == x.id)).getLast? with
        | some u => u
        | none => x })

/-- The invoice-creation header draft of variant 1 (all fields raw strings). -/
structure CreateDraft where
  invoiceNo : String
  date : String
  supplierName : String
  tevfikatRate : String
  discountTotal : String
deriving DecidableEq

/-- One row of the invoice-creation form of variant 1 (raw strings). -/
structure CreateLine where
  invoiceItem : String
  qty : String
  unitType : String
  unitPrice : String
  discountRate : String
  vatRate : String
deriving DecidableEq

/-- The `meaningfulLines` computation of `saveInvoiceCreate` (variant 1):
form rows with a non-empty trimmed item description, item trimmed and every
other field copied (already a string). -/
def createPayloadLines (createLines : List CreateLine) : List CreateLine :=
  (createLines.filter (fun l => trimStr l.invoiceItem ≠ "")).map
    fun l => { l with invoiceItem := trimStr l.invoiceItem }

/-- The `newLines` computation of `saveInvoiceCreate` (variant 1): each
meaningful line gets a fresh id (`lineId i` models the `i`-th `uid()` call)
and the new invoice id. -/
def createNewLines (createLines : List CreateLine) (invId : String)
    (lineId : ℕ → String) : List Line :=
  (createPayloadLines createLines).enum.map fun p =>
    { id := lineId p.1, invoiceId := invId, invoiceItem := p.2.invoiceItem
      qty := p.2.qty, unitType := p.2.unitType, unitPrice := p.2.unitPrice
      discountRate := p.2.discountRate, vatRate := p.2.vatRate }

/-- `saveInvoiceCreate` (variant 1): validate, build the invoice and its new
lines, allocate a positive lump discount over the new lines *before*
insertion (`state'e bakmadan`), then prepend everything to the store.
`invId` stands for the generated `uid()` of the invoice and `lineId i` for
the `uid()` of the `i`-th meaningful line. -/
def saveInvoiceCreate (draft : CreateDraft) (createLines : List CreateLine)
    (invId : String) (lineId : ℕ → String) (st : AppState) :
    Option String × AppState :=
  if trimStr draft.supplierName = "" then (some "Tedarikçi adı zorunludur.", st)
  else
    if (createPayloadLines createLines).length = 0 then
      (some "En az 1 kalem girmelisiniz.", st)
    else
      let inv : Invoice :=
        { id := invId
          invoiceNo := if trimStr draft.invoiceNo = "" then "INV-" ++ invId.take 6
                       else trimStr draft.invoiceNo
          date := draft.date
          supplierName := trimStr draft.supplierName
          tevfikatRate := clamp (toNumber (.str draft.tevfikatRate)) 0 100
          discountTotal := max 0 (toNumber (.str draft.discountTotal)) }
      let newLines0 : List Line := createNewLines createLines invId lineId
      let newLines :=
        if 0 < inv.discountTotal then
          let sumW := (newLines0.map lineWeight).foldl (· + ·) 0
          if 0 < sumW then allocLines inv.discountTotal sumW newLines0 else newLines0
        else newLines0
      (none, { invoices := inv :: st.invoices, lines := newLines ++ st.lines })

/-- A joined display row of variant 1 (line fields plus invoice header text). -/
structure Row where
  date : String
  supplierName : String
  invoiceNo : String
  invoiceItem : String
  qty : String
  unitType : String
  unitPrice : String
  discountRate : String
  vatRate : String
deriving DecidableEq

/-- An export row as assembled by `buildExportRows` (variant 1). -/
structure ExportRow where
  date : String
  supplierName : String
  invoiceNo : String
  invoiceItem : String
  qty : String
  unitType : String
  unitPrice : String
  discountRate : String
  unitNet : String
  vatRate : String
  unitVatIncl : String
  totalNet : String
  totalVatIncl : String
deriving DecidableEq

/-- One row of `buildExportRows` (variant 1): raw fields are copied verbatim;
the four computed fields are `String(...)` renderings, or `""` when the
computed value is falsy (0). -/
def buildExportRow (r : Row) : ExportRow :=
  let c := calcLine (.str r.qty) (.str r.unitPrice) (.str r.discountRate) (.str r.vatRate)
  { date := r.date
    supplierName := r.supplierName
    invoiceNo := r.invoiceNo
    invoiceItem := r.invoiceItem
    qty := r.qty
    unitType := r.unitType
    unitPrice := r.unitPrice
    discountRate := r.discountRate
    unitNet := if c.unitNet ≠ 0 then jsStr c.unitNet else ""
    vatRate := r.vatRate
    unitVatIncl := if c.unitVatIncl ≠ 0 then jsStr c.unitVatIncl else ""
    totalNet := if c.totalNet ≠ 0 then jsStr c.totalNet else ""
    totalVatIncl := if c.totalVatIncl ≠ 0 then jsStr c.totalVatIncl else "" }

/-- `buildExportRows` (variant 1). -/
def buildExportRows (rows : List Row) : List ExportRow := rows.map buildExportRow

/-- Does `formatForInput`'s canonical rendering of `x` trip the thousands
heuristic of `parseSmartNumber`? That happens exactly when the rendering has
a fractional part of exactly three digits (after trailing-zero trimming of
the 6-decimal expansion) and an integer part of at most three digits. Stated
arithmetically on `m = |x| * 10^6` for `x` with at most 6 decimals. -/
def heuristicTrips (x : ℚ) : Bool :=
  let a := if x < 0 then -x else x
  let m := a.num.toNat * 10 ^ 6 / a.den
  let f := m % 10 ^ 6
  f % 10 ^ 3 == 0 && f % 10 ^ 4 != 0 && f != 0 && m / 10 ^ 6 < 1000

end V1

namespace V2

/-- `toNumber` (variant 2, `src/unnamed/part_000`):
`Number(String(v).replace(",", "."))` for strings (the *first* `','` becomes
`'.'`), pass-through for numbers. -/
def toNumber : JSVal → ℚ
  | .num q => q
  | .str s => jsNumber (String.mk (replaceFirst s.data ',' '.'))

/-- `calcLine` (variant 2): same formulas as variant 1 over `toNumber`. -/
def calcLine (qty unitPrice discountRate vatRate : JSVal) : LineComputed :=
  let q := max 0 (toNumber qty)
  let up := max 0 (toNumber unitPrice)
  let disc := clamp (toNumber discountRate) 0 100
  let vat := clamp (toNumber vatRate) 0 100
  let unitNet := up * (1 - disc / 100)
  let unitVatIncl := unitNet * (1 + vat / 100)
  let totalNet := unitNet * q
  let totalVatIncl := unitVatIncl * q
  let vatAmount := totalVatIncl - totalNet
  ⟨q, up, disc, vat, unitNet, unitVatIncl, totalNet, totalVatIncl, vatAmount⟩

/-- An invoice line / line draft of variant 2: numeric fields are numbers in
the stored collections but may transiently hold raw strings while a draft is
edited, hence `JSVal`. -/
structure Line where
  id : String
  invoiceId : String
  invoiceItem : String
  qty : JSVal
  unitType : String
  unitPrice : JSVal
  discountRate : JSVal
  vatRate : JSVal
deriving DecidableEq

/-- `calcLine` applied to a stored line / draft of variant 2. -/
def calcLineOf (d : Line) : LineComputed :=
  calcLine d.qty d.unitPrice d.discountRate d.vatRate

/-- `deriveFromUnitNet` (variant 2): stores plain numbers (no `String(...)`). -/
def deriveFromUnitNet (draft : Line) (nextUnitNet : JSVal) : Line :=
  let unitNet := max 0 (toNumber nextUnitNet)
  let up := max 0 (toNumber draft.unitPrice)
  if 0 < up then
    let disc := 100 * (1 - unitNet / up)
    if disc < 0 then { draft with unitPrice := .num unitNet, discountRate := .num 0 }
    else { draft with discountRate := .num (clamp disc 0 100) }
  else { draft with unitPrice := .num unitNet, discountRate := .num 0 }

/-- `deriveFromUnitVatIncl` (variant 2). -/
def deriveFromUnitVatIncl (draft : Line) (nextUnitVatIncl : JSVal) : Line :=
  let vat := clamp (toNumber draft.vatRate) 0 100
  let uvi := max 0 (toNumber nextUnitVatIncl)
  let denom := 1 + vat / 100
  let unitNet := if 0 < denom then uvi / denom else uvi
  deriveFromUnitNet draft (.num unitNet)

/-- The in-memory store of variant 2. -/
structure AppState where
  invoices : List Invoice
  lines : List Line
deriving DecidableEq

/-- Pre-discount weight of a line (variant 2). -/
def lineWeight (ln : Line) : ℚ :=
  max 0 (toNumber ln.unitPrice) * max 0 (toNumber ln.qty)

/-- The update step of the allocation loop (variant 2): like variant 1 but the
new rate is stored as a number. -/
def allocLines (D sumW : ℚ) (lns : List Line) : List Line :=
  (lns.zip (allocShares D sumW (lns.map lineWeight) 0)).map fun p =>
    let w := lineWeight p.1
    let rate := if 0 < w then p.2 / w * 100 else 0
    { p.1 with discountRate := .num (clamp rate 0 100) }

/-- Body of `distributeInvoiceDiscount` (variant 2) with the read and write
sides separated: `staleLines` is the `lines` array captured by the React
closure at render time (which the reads use), while the write
(`setLines(prev => ...)`) applies to the current state `st`. A direct call
has `staleLines = st.lines`; the call inside `saveInvoiceCreate` does not. -/
def distributeStale (staleLines : List Line) (st : AppState) (invoiceId : String)
    (discountTotal : ℚ) : Option String × AppState :=
  let invLines := staleLines.filter (fun x => x.invoiceId == invoiceId)
  if invLines.length = 0 then (some "Faturada kalem yok.", st)
  else
    let sumW := (invLines.map lineWeight).foldl (· + ·) 0
    if sumW ≤ 0 then (some "Dağıtım için kalem tutarları 0'dan büyük olmalıdır.", st)
    else
      let updated := allocLines discountTotal sumW invLines
      (none, { st with lines := st.lines.map fun x =>
        match (updated.filter (fun u => u.id == x.id)).getLast? with
        | some u => u
        | none => x })

/-- `distributeInvoiceDiscount` (variant 2) invoked directly (fresh render, so
the captured `lines` and the current state agree). -/
def distributeInvoiceDiscount (st : AppState) (invoiceId : String)
    (discountTotal : ℚ) : Option String × AppState :=
  distributeStale st.lines st invoiceId discountTotal

/-- The invoice-creation header draft of variant 2 (numeric fields `JSVal`:
initialised to numbers, replaced by raw strings as the user types). -/
structure CreateDraft where
  invoiceNo : String
  date : String
  supplierName : String
  tevfikatRate : JSVal
  discountTotal : JSVal
deriving DecidableEq

/-- One row of the invoice-creation form of variant 2. -/
structure CreateLine where
  invoiceItem : String
  qty : JSVal
  unitType : String
  unitPrice : JSVal
  discountRate : JSVal
  vatRate : JSVal
deriving DecidableEq

/-- The `meaningfulLines` computation of `saveInvoiceCreate` (variant 2):
rows with a non-empty trimmed item description, numeric fields normalised to
numbers (clamped for the two rates). -/
def createPayloadLines (createLines : List CreateLine) : List CreateLine :=
  (createLines.filter (fun l => trimStr l.invoiceItem ≠ "")).map
    fun l =>
      { invoiceItem := trimStr l.invoiceItem
        qty := JSVal.num (toNumber l.qty)
        unitType := l.unitType
        unitPrice := JSVal.num (toNumber l.unitPrice)
        discountRate := JSVal.num (clamp (toNumber l.discountRate) 0 100)
        vatRate := JSVal.num (clamp (toNumber l.vatRate) 0 100) }

/-- The `newLines` computation of `saveInvoiceCreate` (variant 2). -/
def createNewLines (createLines : List CreateLine) (invId : String)
    (lineId : ℕ → String) : List Line :=
  (createPayloadLines createLines).enum.map fun p =>
    { id := lineId p.1, invoiceId := invId, invoiceItem := p.2.invoiceItem
      qty := p.2.qty, unitType := p.2.unitType, unitPrice := p.2.unitPrice
      discountRate := p.2.discountRate, vatRate := p.2.vatRate }

/-- `saveInvoiceCreate` (variant 2): validate, normalise the meaningful lines
to numbers, *insert* the invoice and lines, and only then call
`distributeInvoiceDiscount` — whose reads see the stale pre-insertion
`lines` captured by the closure (`distributeStale st.lines ...`). -/
def saveInvoiceCreate (draft : CreateDraft) (createLines : List CreateLine)
    (invId : String) (lineId : ℕ → String) (st : AppState) :
    Option String × AppState :=
  if trimStr draft.supplierName = "" then (some "Tedarikçi adı zorunludur.", st)
  else
    if (createPayloadLines createLines).length = 0 then
      (some "En az 1 kalem girmelisiniz.", st)
    else
      let inv : Invoice :=
        { id := invId
          invoiceNo := if trimStr draft.invoiceNo = "" then "INV-" ++ invId.take 6
                       else trimStr draft.invoiceNo
          date := draft.date
          supplierName := trimStr draft.supplierName
          tevfikatRate := clamp (toNumber draft.tevfikatRate) 0 100
          discountTotal := max 0 (toNumber draft.discountTotal) }
      let newLines : List Line := createNewLines createLines invId lineId
      let st1 : AppState := { invoices := inv :: st.invoices, lines := newLines ++ st.lines }
      if 0 < inv.discountTotal then distributeStale st.lines st1 invId inv.discountTotal
      else (none, st1)

end V2

/-- The export-format predicate of the specification: a string is a plain
decimal serialisation when it consists only of digits, `'.'` and a sign
(in particular, no `','` locale separator). -/
def dotDecimalStr (s : String) : Bool :=
  s.data.all fun c => c.isDigit || c == '.' || c == '-'

end SatinalmaUI

namespace SatinalmaUI

theorem clamp_le_hi (n lo hi : ℚ) : clamp n lo hi ≤ hi := min_le_left _ _

theorem lo_le_clamp (n lo hi : ℚ) (h : lo ≤ hi) : lo ≤ clamp n lo hi :=
  le_min h (le_max_left _ _)

theorem clamp_eq_self (n lo hi : ℚ) (h0 : lo ≤ n) (h1 : n ≤ hi) : clamp n lo hi = n := by
  rw [clamp, max_eq_right h0, min_eq_right h1]

theorem calcLine1_q (a b c d : JSVal) : (V1.calcLine a b c d).q = max 0 (V1.toNumber a) := rfl

theorem calcLine1_up (a b c d : JSVal) : (V1.calcLine a b c d).up = max 0 (V1.toNumber b) := rfl

theorem calcLine1_disc (a b c d : JSVal) :
    (V1.calcLine a b c d).disc = clamp (V1.toNumber c) 0 100 := rfl

theorem calcLine1_vat (a b c d : JSVal) :
    (V1.calcLine a b c d).vat = clamp (V1.toNumber d) 0 100 := rfl

theorem calcLine1_unitNet (a b c d : JSVal) :
    (V1.calcLine a b c d).unitNet =
      (V1.calcLine a b c d).up * (1 - (V1.calcLine a b c d).disc / 100) := rfl

theorem calcLine1_unitVatIncl (a b c d : JSVal) :
    (V1.calcLine a b c d).unitVatIncl =
      (V1.calcLine a b c d).unitNet * (1 + (V1.calcLine a b c d).vat / 100) := rfl

theorem calcLine1_totalNet (a b c d : JSVal) :
    (V1.calcLine a b c d).totalNet =
      (V1.calcLine a b c d).unitNet * (V1.calcLine a b c d).q := rfl

theorem calcLine1_totalVatIncl (a b c d : JSVal) :
    (V1.calcLine a b c d).totalVatIncl =
      (V1.calcLine a b c d).unitVatIncl * (V1.calcLine a b c d).q := rfl

theorem calcLine1_vatAmount (a b c d : JSVal) :
    (V1.calcLine a b c d).vatAmount =
      (V1.calcLine a b c d).totalVatIncl - (V1.calcLine a b c d).totalNet := rfl

theorem calcLine2_q (a b c d : JSVal) : (V2.calcLine a b c d).q = max 0 (V2.toNumber a) := rfl

theorem calcLine2_up (a b c d : JSVal) : (V2.calcLine a b c d).up = max 0 (V2.toNumber b) := rfl

theorem calcLine2_disc (a b c d : JSVal) :
    (V2.calcLine a b c d).disc = clamp (V2.toNumber c) 0 100 := rfl

theorem calcLine2_vat (a b c d : JSVal) :
    (V2.calcLine a b c d).vat = clamp (V2.toNumber d) 0 100 := rfl

theorem calcLine2_unitNet (a b c d : JSVal) :
    (V2.calcLine a b c d).unitNet =
      (V2.calcLine a b c d).up * (1 - (V2.calcLine a b c d).disc / 100) := rfl

theorem calcLine2_unitVatIncl (a b c d : JSVal) :
    (V2.calcLine a b c d).unitVatIncl =
      (V2.calcLine a b c d).unitNet * (1 + (V2.calcLine a b c d).vat / 100) := rfl

theorem calcLine2_totalNet (a b c d : JSVal) :
    (V2.calcLine a b c d).totalNet =
      (V2.calcLine a b c d).unitNet * (V2.calcLine a b c d).q := rfl

theorem calcLine2_totalVatIncl (a b c d : JSVal) :
    (V2.calcLine a b c d).totalVatIncl =
      (V2.calcLine a b c d).unitVatIncl * (V2.calcLine a b c d).q := rfl

theorem calcLine2_vatAmount (a b c d : JSVal) :
    (V2.calcLine a b c d).vatAmount =
      (V2.calcLine a b c d).totalVatIncl - (V2.calcLine a b c d).totalNet := rfl

/-- All four input-normalisation facts of `calcLine` (variant 1). -/
theorem calcLine1_ranges (a b c d : JSVal) :
    0 ≤ (V1.calcLine a b c d).q ∧ 0 ≤ (V1.calcLine a b c d).up ∧
      0 ≤ (V1.calcLine a b c d).disc ∧ (V1.calcLine a b c d).disc ≤ 100 ∧
      0 ≤ (V1.calcLine a b c d).vat ∧ (V1.calcLine a b c d).vat ≤ 100 :=
  ⟨le_max_left _ _, le_max_left _ _, lo_le_clamp _ _ _ (by norm_num),
    clamp_le_hi _ _ _, lo_le_clamp _ _ _ (by norm_num), clamp_le_hi _ _ _⟩

/-- All four input-normalisation facts of `calcLine` (variant 2). -/
theorem calcLine2_ranges (a b c d : JSVal) :
    0 ≤ (V2.calcLine a b c d).q ∧ 0 ≤ (V2.calcLine a b c d).up ∧
      0 ≤ (V2.calcLine a b c d).disc ∧ (V2.calcLine a b c d).disc ≤ 100 ∧
      0 ≤ (V2.calcLine a b c d).vat ∧ (V2.calcLine a b c d).vat ≤ 100 :=
  ⟨le_max_left _ _, le_max_left _ _, lo_le_clamp _ _ _ (by norm_num),
    clamp_le_hi _ _ _, lo_le_clamp _ _ _ (by norm_num), clamp_le_hi _ _ _⟩

/-- C4: for every input text, with `q, p, d, v` the parsed-and-clamped
quantity, unit price, discount rate and VAT rate, the line calculator of
either variant computes `totalVatIncl = totalNet * (1 + v/100)` and
`totalNet ≤ p * q`. -/
theorem calcLine_totalVatIncl_eq_and_totalNet_le :
    ∀ qty unitPrice discountRate vatRate : String,
      ((V1.calcLine (.str qty) (.str unitPrice) (.str discountRate) (.str vatRate)).totalVatIncl =
          (V1.calcLine (.str qty) (.str unitPrice) (.str discountRate) (.str vatRate)).totalNet *
            (1 + (V1.calcLine (.str qty) (.str unitPrice) (.str discountRate) (.str vatRate)).vat / 100) ∧
        (V1.calcLine (.str qty) (.str unitPrice) (.str discountRate) (.str vatRate)).totalNet ≤
          (V1.calcLine (.str qty) (.str unitPrice) (.str discountRate) (.str vatRate)).up *
            (V1.calcLine (.str qty) (.str unitPrice) (.str discountRate) (.str vatRate)).q) ∧
      ((V2.calcLine (.str qty) (.str unitPrice) (.str discountRate) (.str vatRate)).totalVatIncl =
          (V2.calcLine (.str qty) (.str unitPrice) (.str discountRate) (.str vatRate)).totalNet *
            (1 + (V2.calcLine (.str qty) (.str unitPrice) (.str discountRate) (.str vatRate)).vat / 100) ∧
        (V2.calcLine (.str qty) (.str unitPrice) (.str discountRate) (.str vatRate)).totalNet ≤
          (V2.calcLine (.str qty) (.str unitPrice) (.str discountRate) (.str vatRate)).up *
            (V2.calcLine (.str qty) (.str unitPrice) (.str discountRate) (.str vatRate)).q) := by
  intro qty unitPrice discountRate vatRate
  constructor
  · obtain ⟨hq, hup, hd0, hd1, hv0, hv1⟩ :=
      calcLine1_ranges (.str qty) (.str unitPrice) (.str discountRate) (.str vatRate)
    constructor
    · rw [calcLine1_totalVatIncl, calcLine1_totalNet, calcLine1_unitVatIncl]; ring
    · rw [calcLine1_totalNet, calcLine1_unitNet]
      nlinarith [mul_nonneg (mul_nonneg hup hq) hd0]
  · obtain ⟨hq, hup, hd0, hd1, hv0, hv1⟩ :=
      calcLine2_ranges (.str qty) (.str unitPrice) (.str discountRate) (.str vatRate)
    constructor
    · rw [calcLine2_totalVatIncl, calcLine2_totalNet, calcLine2_unitVatIncl]; ring
    · rw [calcLine2_totalNet, calcLine2_unitNet]
      nlinarith [mul_nonneg (mul_nonneg hup hq) hd0]

/-- C5: for every input to the line calculator (either variant), the computed
values satisfy the `LineComputed` invariant: `unitNet` is at most the clamped
parsed unit price, and `vatAmount` is nonnegative. -/
theorem calcLine_unitNet_le_up_and_vatAmount_nonneg :
    ∀ qty unitPrice discountRate vatRate : JSVal,
      ((V1.calcLine qty unitPrice discountRate vatRate).unitNet ≤
          (V1.calcLine qty unitPrice discountRate vatRate).up ∧
        0 ≤ (V1.calcLine qty unitPrice discountRate vatRate).vatAmount) ∧
      ((V2.calcLine qty unitPrice discountRate vatRate).unitNet ≤
          (V2.calcLine qty unitPrice discountRate vatRate).up ∧
        0 ≤ (V2.calcLine qty unitPrice discountRate vatRate).vatAmount) := by
  intro a b c d
  constructor
  · obtain ⟨hq, hup, hd0, hd1, hv0, hv1⟩ := calcLine1_ranges a b c d
    have hnet : 0 ≤ (V1.calcLine a b c d).unitNet := by
      rw [calcLine1_unitNet]
      exact mul_nonneg hup (by linarith)
    constructor
    · rw [calcLine1_unitNet]
      nlinarith [mul_nonneg hup hd0]
    · rw [calcLine1_vatAmount, calcLine1_totalVatIncl, calcLine1_totalNet,
        calcLine1_unitVatIncl]
      nlinarith [mul_nonneg (mul_nonneg hnet hq) hv0]
  · obtain ⟨hq, hup, hd0, hd1, hv0, hv1⟩ := calcLine2_ranges a b c d
    have hnet : 0 ≤ (V2.calcLine a b c d).unitNet := by
      rw [calcLine2_unitNet]
      exact mul_nonneg hup (by linarith)
    constructor
    · rw [calcLine2_unitNet]
      nlinarith [mul_nonneg hup hd0]
    · rw [calcLine2_vatAmount, calcLine2_totalVatIncl, calcLine2_totalNet,
        calcLine2_unitVatIncl]
      nlinarith [mul_nonneg (mul_nonneg hnet hq) hv0]

/-- C10: in both variants, `deriveFromUnitNet` and `deriveFromUnitVatIncl`
change at most `unitPrice` and `discountRate`: every other field (`id`,
`invoiceId`, `invoiceItem`, `qty`, `unitType`, `vatRate`) of the returned
draft equals the corresponding field of the input draft. -/
theorem derive_frame_preserves_other_fields :
    ∀ (d1 : V1.Line) (d2 : V2.Line) (v : JSVal),
      ((V1.deriveFromUnitNet d1 v).id = d1.id ∧
        (V1.deriveFromUnitNet d1 v).invoiceId = d1.invoiceId ∧
        (V1.deriveFromUnitNet d1 v).invoiceItem = d1.invoiceItem ∧
        (V1.deriveFromUnitNet d1 v).qty = d1.qty ∧
        (V1.deriveFromUnitNet d1 v).unitType = d1.unitType ∧
        (V1.deriveFromUnitNet d1 v).vatRate = d1.vatRate) ∧
      ((V1.deriveFromUnitVatIncl d1 v).id = d1.id ∧
        (V1.deriveFromUnitVatIncl d1 v).invoiceId = d1.invoiceId ∧
        (V1.deriveFromUnitVatIncl d1 v).invoiceItem = d1.invoiceItem ∧
        (V1.deriveFromUnitVatIncl d1 v).qty = d1.qty ∧
        (V1.deriveFromUnitVatIncl d1 v).unitType = d1.unitType ∧
        (V1.deriveFromUnitVatIncl d1 v).vatRate = d1.vatRate) ∧
      ((V2.deriveFromUnitNet d2 v).id = d2.id ∧
        (V2.deriveFromUnitNet d2 v).invoiceId = d2.invoiceId ∧
        (V2.deriveFromUnitNet d2 v).invoiceItem = d2.invoiceItem ∧
        (V2.deriveFromUnitNet d2 v).qty = d2.qty ∧
        (V2.deriveFromUnitNet d2 v).unitType = d2.unitType ∧
        (V2.deriveFromUnitNet d2 v).vatRate = d2.vatRate) ∧
      ((V2.deriveFromUnitVatIncl d2 v).id = d2.id ∧
        (V2.deriveFromUnitVatIncl d2 v).invoiceId = d2.invoiceId ∧
        (V2.deriveFromUnitVatIncl d2 v).invoiceItem = d2.invoiceItem ∧
        (V2.deriveFromUnitVatIncl d2 v).qty = d2.qty ∧
        (V2.deriveFromUnitVatIncl d2 v).unitType = d2.unitType ∧
        (V2.deriveFromUnitVatIncl d2 v).vatRate = d2.vatRate) := by
  intro d1 d2 v
  refine ⟨?_, ?_, ?_, ?_⟩ <;>
    simp only [V1.deriveFromUnitNet, V1.deriveFromUnitVatIncl,
      V2.deriveFromUnitNet, V2.deriveFromUnitVatIncl] <;>
    repeat' split
  all_goals exact ⟨rfl, rfl, rfl, rfl, rfl, rfl⟩

theorem allocShares_sum_eq (D sumW : ℚ) :
    ∀ (ws : List ℚ) (alloc : ℚ), ws ≠ [] →
      (allocShares D sumW ws alloc).sum = D - alloc := by
  intro ws
  induction ws with
  | nil => intro alloc h; exact absurd rfl h
  | cons w ws ih =>
    intro alloc _
    cases ws with
    | nil => simp [allocShares]
    | cons w2 ws2 =>
      have h2 := ih (alloc + D * w / sumW) (by simp)
      simp only [allocShares, List.sum_cons, h2]
      ring

/-- C2: for every non-empty line list whose weights (clamped
`unitPrice * qty`) have a positive sum, and every `discountTotal ≥ 0`, the
per-line shares of the discount-distribution loop (proportional share for
every line but the last, remainder for the last) sum to exactly
`discountTotal`. -/
theorem distribute_shares_sum_exact :
    ∀ (lns : List V1.Line) (D : ℚ), lns ≠ [] →
      0 < ((lns.map V1.lineWeight).foldl (· + ·) 0) → 0 ≤ D →
      (allocShares D ((lns.map V1.lineWeight).foldl (· + ·) 0)
        (lns.map V1.lineWeight) 0).sum = D := by
  intro lns D hne _ _
  rw [allocShares_sum_eq _ _ _ 0 (by simpa using hne), sub_zero]

/-- Witness for `distribute_shares_sum_exact` at a single concrete line and
`discountTotal = 5`. -/
theorem distribute_shares_sum_exact_witness :
    (allocShares 5 (([⟨"a", "i", "x", "1", "Adet", "1", "0", "0"⟩].map V1.lineWeight).foldl (· + ·) 0)
      ([(⟨"a", "i", "x", "1", "Adet", "1", "0", "0"⟩ : V1.Line)].map V1.lineWeight) 0).sum = 5 :=
  distribute_shares_sum_exact [⟨"a", "i", "x", "1", "Adet", "1", "0", "0"⟩] 5
    (by simp)
    (by simp only [List.map_cons, List.map_nil, List.foldl_cons, List.foldl_nil, zero_add,
          V1.lineWeight, show V1.toNumber (.str "1") = 1 from by decide,
          show max (0 : ℚ) 1 = 1 from by decide, mul_one]
        decide)
    (by decide)

/-- C7: invoking the discount allocator (either variant) on an invoice with
no lines, or with a nonpositive weight sum, reports an alert and returns the
state unchanged. -/
theorem distribute_error_reports_and_mutates_nothing :
    (∀ (st : V1.AppState) (invId : String) (D : ℚ),
      ((st.lines.filter (fun x => x.invoiceId == invId)).length = 0 ∨
        ((st.lines.filter (fun x => x.invoiceId == invId)).map V1.lineWeight).foldl (· + ·) 0 ≤ 0) →
      (V1.distributeInvoiceDiscount st invId D).2 = st ∧
        (V1.distributeInvoiceDiscount st invId D).1.isSome = true) ∧
    (∀ (st : V2.AppState) (invId : String) (D : ℚ),
      ((st.lines.filter (fun x => x.invoiceId == invId)).length = 0 ∨
        ((st.lines.filter (fun x => x.invoiceId == invId)).map V2.lineWeight).foldl (· + ·) 0 ≤ 0) →
      (V2.distributeInvoiceDiscount st invId D).2 = st ∧
        (V2.distributeInvoiceDiscount st invId D).1.isSome = true) := by
  constructor
  · intro st invId D h
    by_cases h0 : (st.lines.filter (fun x => x.invoiceId == invId)).length = 0
    · simp [V1.distributeInvoiceDiscount, h0]
    · have hs := h.resolve_left h0
      simp [V1.distributeInvoiceDiscount, h0, hs]
  · intro st invId D h
    by_cases h0 : (st.lines.filter (fun x => x.invoiceId == invId)).length = 0
    · simp [V2.distributeInvoiceDiscount, V2.distributeStale, h0]
    · have hs := h.resolve_left h0
      simp [V2.distributeInvoiceDiscount, V2.distributeStale, h0, hs]

theorem toNumber1_num (q : ℚ) : V1.toNumber (.num q) = q := rfl

theorem toNumber1_str (s : String) : V1.toNumber (.str s) = V1.parseSmartStr s := rfl

theorem toNumber2_num (q : ℚ) : V2.toNumber (.num q) = q := rfl

/-- `unitNet` of any variant-1 line is nonnegative. -/
theorem calcLineOf1_unitNet_nonneg (d : V1.Line) : 0 ≤ (V1.calcLineOf d).unitNet := by
  obtain ⟨hq, hup, hd0, hd1, hv0, hv1⟩ :=
    calcLine1_ranges (.str d.qty) (.str d.unitPrice) (.str d.discountRate) (.str d.vatRate)
  rw [V1.calcLineOf, calcLine1_unitNet]
  exact mul_nonneg hup (by linarith)

/-- C1 (amended): for a variant-1 line draft whose unit price parses to a
positive value and whose recomputed discount
`disc = 100 * (1 - unitNet / unitPrice)` lies in `[0, 100]`, feeding the
draft's own computed `unitNet` back through `deriveFromUnitNet` reproduces
`unitNet` exactly — *provided* the `String(...)` rendering of the clamped
discount re-parses to the same number (`parseSmartNumber`'s thousands
heuristic misreads renderings with exactly three decimals and at most three
integer digits, see the counterexample). -/
theorem deriveFromUnitNet_roundtrip :
    ∀ d : V1.Line,
      0 < V1.toNumber (.str d.unitPrice) →
      0 ≤ 100 * (1 - (V1.calcLineOf d).unitNet / max 0 (V1.toNumber (.str d.unitPrice))) →
      100 * (1 - (V1.calcLineOf d).unitNet / max 0 (V1.toNumber (.str d.unitPrice))) ≤ 100 →
      V1.toNumber (.str (jsStr (clamp (100 * (1 - (V1.calcLineOf d).unitNet /
          max 0 (V1.toNumber (.str d.unitPrice)))) 0 100))) =
        clamp (100 * (1 - (V1.calcLineOf d).unitNet /
          max 0 (V1.toNumber (.str d.unitPrice)))) 0 100 →
      (V1.calcLineOf (V1.deriveFromUnitNet d (.num (V1.calcLineOf d).unitNet))).unitNet =
        (V1.calcLineOf d).unitNet := by
  intro d h0 hge hle hre
  have hupmax : max 0 (V1.toNumber (.str d.unitPrice)) = V1.toNumber (.str d.unitPrice) :=
    max_eq_right h0.le
  have hup0 : 0 < max 0 (V1.toNumber (.str d.unitPrice)) := by rw [hupmax]; exact h0
  have hun0 : 0 ≤ (V1.calcLineOf d).unitNet := calcLineOf1_unitNet_nonneg d
  have hder : V1.deriveFromUnitNet d (.num (V1.calcLineOf d).unitNet) =
      { d with discountRate := jsStr (clamp (100 * (1 - (V1.calcLineOf d).unitNet /
          max 0 (V1.toNumber (.str d.unitPrice)))) 0 100) } := by
    rw [V1.deriveFromUnitNet]
    simp only [toNumber1_num, max_eq_right hun0, if_pos hup0, if_neg (not_lt.mpr hge)]
  rw [hder]
  have hcalc : V1.calcLineOf { d with discountRate := jsStr (clamp (100 *
      (1 - (V1.calcLineOf d).unitNet / max 0 (V1.toNumber (.str d.unitPrice)))) 0 100) } =
      V1.calcLine (.str d.qty) (.str d.unitPrice)
        (.str (jsStr (clamp (100 * (1 - (V1.calcLineOf d).unitNet /
          max 0 (V1.toNumber (.str d.unitPrice)))) 0 100))) (.str d.vatRate) := rfl
  rw [hcalc, calcLine1_unitNet, calcLine1_up, calcLine1_disc, hre]
  rw [clamp_eq_self _ _ _ (lo_le_clamp _ _ _ (by norm_num)) (clamp_le_hi _ _ _),
    clamp_eq_self _ _ _ hge hle]
  have hne : max 0 (V1.toNumber (.str d.unitPrice)) ≠ 0 := ne_of_gt hup0
  field_simp
  ring

/-- Witness for `deriveFromUnitNet_roundtrip`: price "100", discount "5",
so `unitNet = 95`, `disc = 5`, and `String(5) = "5"` re-parses to 5. -/
theorem deriveFromUnitNet_roundtrip_witness :
    (V1.calcLineOf (V1.deriveFromUnitNet ⟨"", "", "", "2", "", "100", "5", "20"⟩
        (.num (V1.calcLineOf ⟨"", "", "", "2", "", "100", "5", "20"⟩).unitNet))).unitNet =
      (V1.calcLineOf ⟨"", "", "", "2", "", "100", "5", "20"⟩).unitNet := by
  have hnet : (V1.calcLineOf ⟨"", "", "", "2", "", "100", "5", "20"⟩).unitNet = 95 := by
    rw [V1.calcLineOf, calcLine1_unitNet, calcLine1_up, calcLine1_disc, toNumber1_str,
      toNumber1_str, show V1.parseSmartStr "100" = 100 from by decide,
      show V1.parseSmartStr "5" = 5 from by decide, clamp]
    norm_num
  refine deriveFromUnitNet_roundtrip ⟨"", "", "", "2", "", "100", "5", "20"⟩ ?_ ?_ ?_ ?_
  · dsimp only
    decide
  · dsimp only
    rw [hnet, show V1.toNumber (.str "100") = 100 from by decide,
      show (0 : ℚ) ⊔ 100 = 100 from by decide]
    norm_num
  · dsimp only
    rw [hnet, show V1.toNumber (.str "100") = 100 from by decide,
      show (0 : ℚ) ⊔ 100 = 100 from by decide]
    norm_num
  · dsimp only
    rw [hnet, show V1.toNumber (.str "100") = 100 from by decide,
      show (0 : ℚ) ⊔ 100 = 100 from by decide,
      show (100 : ℚ) * (1 - 95 / 100) = 5 from by norm_num,
      clamp_eq_self 5 0 100 (by norm_num) (by norm_num),
      show jsStr 5 = "5" from by decide]
    decide

/-- C1 counterexample: the draft with `unitPrice = "100"` and
`discountRate = "1.2340"` (which parses to 1.234) has `unitNet = 98.766` and
recomputed discount `1.234 ∈ [0, 100]`, yet the round trip stores
`String(1.234) = "1.234"`, which the thousands heuristic re-parses as 1234;
clamped to 100 this yields a recomputed `unitNet` of 0 instead of 98.766 —
far outside any floating-point tolerance. -/
theorem deriveFromUnitNet_roundtrip_counterexample :
    0 < V1.toNumber (.str "100") ∧
    (V1.calcLineOf ⟨"", "", "", "1", "", "100", "1.2340", "0"⟩).unitNet = mkRat 98766 1000 ∧
    0 ≤ 100 * (1 - (V1.calcLineOf ⟨"", "", "", "1", "", "100", "1.2340", "0"⟩).unitNet /
      max 0 (V1.toNumber (.str "100"))) ∧
    100 * (1 - (V1.calcLineOf ⟨"", "", "", "1", "", "100", "1.2340", "0"⟩).unitNet /
      max 0 (V1.toNumber (.str "100"))) ≤ 100 ∧
    (V1.calcLineOf (V1.deriveFromUnitNet ⟨"", "", "", "1", "", "100", "1.2340", "0"⟩
      (.num (V1.calcLineOf ⟨"", "", "", "1", "", "100", "1.2340", "0"⟩).unitNet))).unitNet = 0 ∧
    (0 : ℚ) ≠ mkRat 98766 1000 := by
  have hmk : (mkRat 98766 1000 : ℚ) = 98766 / 1000 := by
    rw [Rat.mkRat_eq_div]; norm_num
  have hnet : (V1.calcLineOf ⟨"", "", "", "1", "", "100", "1.2340", "0"⟩).unitNet =
      mkRat 98766 1000 := by
    rw [V1.calcLineOf, calcLine1_unitNet, calcLine1_up, calcLine1_disc, toNumber1_str,
      toNumber1_str, show V1.parseSmartStr "100" = 100 from by decide,
      show V1.parseSmartStr "1.2340" = mkRat 1234 1000 from by decide, clamp, hmk,
      Rat.mkRat_eq_div]
    norm_num
  have hdisc : 100 * (1 - (V1.calcLineOf ⟨"", "", "", "1", "", "100", "1.2340", "0"⟩).unitNet /
      max 0 (V1.toNumber (.str "100"))) = mkRat 1234 1000 := by
    rw [hnet, toNumber1_str, show V1.parseSmartStr "100" = 100 from by decide, hmk,
      Rat.mkRat_eq_div]
    norm_num
  refine ⟨by rw [toNumber1_str]; decide, hnet, ?_, ?_, ?_, ?_⟩
  · rw [hdisc, Rat.mkRat_eq_div]; norm_num
  · rw [hdisc, Rat.mkRat_eq_div]; norm_num
  · have hder : V1.deriveFromUnitNet ⟨"", "", "", "1", "", "100", "1.2340", "0"⟩
        (.num (V1.calcLineOf ⟨"", "", "", "1", "", "100", "1.2340", "0"⟩).unitNet) =
        ⟨"", "", "", "1", "", "100", "1.234", "0"⟩ := by
      rw [V1.deriveFromUnitNet]
      simp only [toNumber1_num, toNumber1_str, hnet,
        show V1.parseSmartStr "100" = 100 from by decide]
      rw [max_eq_right (by rw [hmk]; norm_num : (0:ℚ) ≤ mkRat 98766 1000)]
      rw [if_pos (by decide : (0:ℚ) < max 0 100)]
      rw [show (100 : ℚ) * (1 - mkRat 98766 1000 / max 0 100) = mkRat 1234 1000 from by
        rw [hmk, Rat.mkRat_eq_div]; norm_num]
      rw [if_neg (by rw [Rat.mkRat_eq_div]; norm_num : ¬(mkRat 1234 1000 : ℚ) < 0)]
      rw [clamp_eq_self _ _ _ (by rw [Rat.mkRat_eq_div]; norm_num)
        (by rw [Rat.mkRat_eq_div]; norm_num)]
      rw [show jsStr (mkRat 1234 1000) = "1.234" from by decide]
    rw [hder, V1.calcLineOf, calcLine1_unitNet, calcLine1_up, calcLine1_disc, toNumber1_str,
      toNumber1_str, show V1.parseSmartStr "100" = 100 from by decide,
      show V1.parseSmartStr "1.234" = 1234 from by decide, clamp]
    norm_num
  · rw [hmk]; norm_num

/-- C3 (amended): in variant 1 (`src/src/App.jsx`), invoice creation with a
positive lump discount and positive weight sum applies the discount
allocator to the new lines *before* insertion, so the inserted lines carry
the allocated rates; in variant 2 (`src/unnamed/part_000`) the lines are
inserted first and the subsequent allocator call reads the *stale*
pre-insertion line collection, so (the new invoice id being fresh) it
aborts with "Faturada kalem yok." and the inserted lines keep their
original clamped rates, unallocated. -/
theorem saveInvoiceCreate_allocation_placement :
    (∀ (draft : V1.CreateDraft) (cls : List V1.CreateLine) (invId : String)
        (lid : ℕ → String) (st : V1.AppState),
      trimStr draft.supplierName ≠ "" →
      (V1.createPayloadLines cls).length ≠ 0 →
      0 < max 0 (V1.toNumber (.str draft.discountTotal)) →
      0 < ((V1.createNewLines cls invId lid).map V1.lineWeight).foldl (· + ·) 0 →
      (V1.saveInvoiceCreate draft cls invId lid st).1 = none ∧
      (V1.saveInvoiceCreate draft cls invId lid st).2.lines =
        V1.allocLines (max 0 (V1.toNumber (.str draft.discountTotal)))
          (((V1.createNewLines cls invId lid).map V1.lineWeight).foldl (· + ·) 0)
          (V1.createNewLines cls invId lid) ++ st.lines) ∧
    (∀ (draft : V2.CreateDraft) (cls : List V2.CreateLine) (invId : String)
        (lid : ℕ → String) (st : V2.AppState),
      trimStr draft.supplierName ≠ "" →
      (V2.createPayloadLines cls).length ≠ 0 →
      0 < max 0 (V2.toNumber draft.discountTotal) →
      (∀ l ∈ st.lines, l.invoiceId ≠ invId) →
      (V2.saveInvoiceCreate draft cls invId lid st).1 = some "Faturada kalem yok." ∧
      (V2.saveInvoiceCreate draft cls invId lid st).2.lines =
        V2.createNewLines cls invId lid ++ st.lines) := by
  constructor
  · intro draft cls invId lid st h1 h2 h3 h4
    rw [V1.saveInvoiceCreate, if_neg h1, if_neg h2]
    simp only [if_pos h3, if_pos h4]
    exact ⟨trivial, trivial⟩
  · intro draft cls invId lid st h1 h2 h3 h4
    have hfil : st.lines.filter (fun x => x.invoiceId == invId) = [] := by
      rw [List.filter_eq_nil_iff]
      intro a ha
      simpa using h4 a ha
    rw [V2.saveInvoiceCreate, if_neg h1, if_neg h2]
    simp only [if_pos h3, V2.distributeStale, hfil]
    exact ⟨rfl, rfl⟩

/-- Witness for `saveInvoiceCreate_allocation_placement` at a concrete
one-line creation request with lump discount 10 in each variant. -/
theorem saveInvoiceCreate_allocation_placement_witness :
    ((V1.saveInvoiceCreate ⟨"", "2025-01-01", "S", "0", "10"⟩
        [⟨"X", "1", "Adet", "100", "0", "0"⟩] "I" (fun _ => "L") ⟨[], []⟩).1 = none ∧
      (V1.saveInvoiceCreate ⟨"", "2025-01-01", "S", "0", "10"⟩
        [⟨"X", "1", "Adet", "100", "0", "0"⟩] "I" (fun _ => "L") ⟨[], []⟩).2.lines =
        V1.allocLines (max 0 (V1.toNumber (.str "10")))
          (((V1.createNewLines [⟨"X", "1", "Adet", "100", "0", "0"⟩] "I" (fun _ => "L")).map
              V1.lineWeight).foldl (· + ·) 0)
          (V1.createNewLines [⟨"X", "1", "Adet", "100", "0", "0"⟩] "I" (fun _ => "L")) ++ []) ∧
    ((V2.saveInvoiceCreate ⟨"", "2025-01-01", "S", .num 0, .num 10⟩
        [⟨"X", .num 1, "Adet", .num 100, .num 0, .num 0⟩] "I" (fun _ => "L") ⟨[], []⟩).1 =
          some "Faturada kalem yok." ∧
      (V2.saveInvoiceCreate ⟨"", "2025-01-01", "S", .num 0, .num 10⟩
        [⟨"X", .num 1, "Adet", .num 100, .num 0, .num 0⟩] "I" (fun _ => "L") ⟨[], []⟩).2.lines =
        V2.createNewLines [⟨"X", .num 1, "Adet", .num 100, .num 0, .num 0⟩] "I"
          (fun _ => "L") ++ []) :=
  ⟨saveInvoiceCreate_allocation_placement.1 ⟨"", "2025-01-01", "S", "0", "10"⟩
      [⟨"X", "1", "Adet", "100", "0", "0"⟩] "I" (fun _ => "L") ⟨[], []⟩
      (by decide) (by decide) (by decide)
      (by simp only [V1.createNewLines, V1.createPayloadLines, List.filter, List.map,
            List.enum, List.enumFrom, List.foldl_cons, List.foldl_nil, zero_add,
            V1.lineWeight,
            show trimStr "X" ≠ "" from by decide,
            show V1.toNumber (.str "100") = 100 from by decide,
            show V1.toNumber (.str "1") = 1 from by decide,
            show max (0 : ℚ) 100 = 100 from by decide,
            show max (0 : ℚ) 1 = 1 from by decide, mul_one]
          decide),
    saveInvoiceCreate_allocation_placement.2 ⟨"", "2025-01-01", "S", .num 0, .num 10⟩
      [⟨"X", .num 1, "Adet", .num 100, .num 0, .num 0⟩] "I" (fun _ => "L") ⟨[], []⟩
      (by decide) (by decide) (by decide) (by simp)⟩

/-- C3 counterexample: in variant 2, creating an invoice with lump discount 10
over one line (qty 1, price 100) inserts the line with its original rate 0;
the allocator, run only after insertion over the stale collection, aborts, so
the inserted lines do *not* equal the allocator's output on the new lines
(which would carry rate 10). This refutes the claim for the second variant. -/
theorem saveInvoiceCreate_stale_counterexample :
    (V2.saveInvoiceCreate ⟨"", "2025-01-01", "S", .num 0, .num 10⟩
        [⟨"X", .num 1, "Adet", .num 100, .num 0, .num 0⟩] "I" (fun _ => "L") ⟨[], []⟩).1 =
      some "Faturada kalem yok." ∧
    (V2.saveInvoiceCreate ⟨"", "2025-01-01", "S", .num 0, .num 10⟩
        [⟨"X", .num 1, "Adet", .num 100, .num 0, .num 0⟩] "I" (fun _ => "L") ⟨[], []⟩).2.lines =
      [⟨"L", "I", "X", .num 1, "Adet", .num 100, .num 0, .num 0⟩] ∧
    V2.allocLines (max 0 (V2.toNumber (JSVal.num 10)))
        (((V2.createNewLines [⟨"X", .num 1, "Adet", .num 100, .num 0, .num 0⟩] "I"
            (fun _ => "L")).map V2.lineWeight).foldl (· + ·) 0)
        (V2.createNewLines [⟨"X", .num 1, "Adet", .num 100, .num 0, .num 0⟩] "I"
          (fun _ => "L")) ++ [] =
      [⟨"L", "I", "X", .num 1, "Adet", .num 100, .num 10, .num 0⟩] ∧
    (V2.saveInvoiceCreate ⟨"", "2025-01-01", "S", .num 0, .num 10⟩
        [⟨"X", .num 1, "Adet", .num 100, .num 0, .num 0⟩] "I" (fun _ => "L") ⟨[], []⟩).2.lines ≠
      V2.allocLines (max 0 (V2.toNumber (JSVal.num 10)))
        (((V2.createNewLines [⟨"X", .num 1, "Adet", .num 100, .num 0, .num 0⟩] "I"
            (fun _ => "L")).map V2.lineWeight).foldl (· + ·) 0)
        (V2.createNewLines [⟨"X", .num 1, "Adet", .num 100, .num 0, .num 0⟩] "I"
          (fun _ => "L")) ++ [] := by
  have hnew : V2.createNewLines [⟨"X", .num 1, "Adet", .num 100, .num 0, .num 0⟩] "I"
      (fun _ => "L") = [⟨"L", "I", "X", .num 1, "Adet", .num 100, .num 0, .num 0⟩] := by
    decide
  have hw : V2.lineWeight ⟨"L", "I", "X", .num 1, "Adet", .num 100, .num 0, .num 0⟩ = 100 := by
    simp only [V2.lineWeight, V2.toNumber,
      show max (0 : ℚ) 100 = 100 from by decide,
      show max (0 : ℚ) 1 = 1 from by decide, mul_one]
  have hD : max 0 (V2.toNumber (JSVal.num 10)) = 10 := by decide
  have halloc : V2.allocLines (max 0 (V2.toNumber (JSVal.num 10)))
      (((V2.createNewLines [⟨"X", .num 1, "Adet", .num 100, .num 0, .num 0⟩] "I"
          (fun _ => "L")).map V2.lineWeight).foldl (· + ·) 0)
      (V2.createNewLines [⟨"X", .num 1, "Adet", .num 100, .num 0, .num 0⟩] "I"
        (fun _ => "L")) =
      [⟨"L", "I", "X", .num 1, "Adet", .num 100, .num 10, .num 0⟩] := by
    rw [hnew, hD]
    simp only [List.map_cons, List.map_nil, List.foldl_cons, List.foldl_nil, zero_add, hw]
    rw [V2.allocLines]
    simp only [List.map_cons, List.map_nil, hw, allocShares, sub_zero, List.zip_cons_cons,
      List.zip_nil_right, List.map_cons, List.map_nil]
    have hrate : (if (0 : ℚ) < 100 then (10 : ℚ) / 100 * 100 else 0) = 10 := by norm_num
    rw [hrate, clamp_eq_self 10 0 100 (by norm_num) (by norm_num)]
  refine ⟨by decide, by decide, by rw [halloc, List.append_nil], ?_⟩
  rw [halloc, List.append_nil, show (V2.saveInvoiceCreate ⟨"", "2025-01-01", "S", .num 0, .num 10⟩
      [⟨"X", .num 1, "Adet", .num 100, .num 0, .num 0⟩] "I" (fun _ => "L") ⟨[], []⟩).2.lines =
      [⟨"L", "I", "X", .num 1, "Adet", .num 100, .num 0, .num 0⟩] from by decide]
  decide

/-- Witness for `distribute_error_reports_and_mutates_nothing` on the empty
store of each variant. -/
theorem distribute_error_witness :
    ((V1.distributeInvoiceDiscount ⟨[], []⟩ "x" 5).2 = (⟨[], []⟩ : V1.AppState) ∧
      (V1.distributeInvoiceDiscount ⟨[], []⟩ "x" 5).1.isSome = true) ∧
    ((V2.distributeInvoiceDiscount ⟨[], []⟩ "x" 5).2 = (⟨[], []⟩ : V2.AppState) ∧
      (V2.distributeInvoiceDiscount ⟨[], []⟩ "x" 5).1.isSome = true) :=
  ⟨distribute_error_reports_and_mutates_nothing.1 ⟨[], []⟩ "x" 5 (Or.inl (by simp)),
    distribute_error_reports_and_mutates_nothing.2 ⟨[], []⟩ "x" 5 (Or.inl (by simp))⟩

theorem natVal_foldl_shift (l : List Char) :
    ∀ x : ℕ, l.foldl (fun a c => 10 * a + charVal c) x = x * 10 ^ l.length + natVal l := by
  induction l with
  | nil => intro x; simp [natVal]
  | cons c t ih =>
    intro x
    have hv : natVal (c :: t) = charVal c * 10 ^ t.length + natVal t := by
      rw [natVal, List.foldl_cons, ih]
      simp
    rw [List.foldl_cons, ih, hv, List.length_cons]
    ring

theorem natVal_cons (c : Char) (l : List Char) :
    natVal (c :: l) = charVal c * 10 ^ l.length + natVal l := by
  rw [natVal, List.foldl_cons, natVal_foldl_shift]
  simp

theorem natVal_append (a b : List Char) :
    natVal (a ++ b) = natVal a * 10 ^ b.length + natVal b := by
  rw [natVal, List.foldl_append, natVal_foldl_shift]
  rfl

theorem natVal_replicate_zero (k : ℕ) : natVal (List.replicate k '0') = 0 := by
  induction k with
  | zero => rfl
  | succ n ih =>
    rw [List.replicate_succ, natVal_cons, ih]
    simp [charVal]

theorem natVal_padZeros (k : ℕ) (l : List Char) : natVal (padZeros k l) = natVal l := by
  rw [padZeros, natVal_append, natVal_replicate_zero]
  simp

theorem charVal_digitChar (n : ℕ) (h : n < 10) : charVal (digitChar n) = n := by
  interval_cases n <;> decide

theorem isDigit_digitChar (n : ℕ) (h : n < 10) : (digitChar n).isDigit = true := by
  interval_cases n <;> decide

theorem natVal_natDigitsAux :
    ∀ fuel n acc, n ≤ fuel →
      natVal (natDigitsAux fuel n acc) = n * 10 ^ acc.length + natVal acc := by
  intro fuel
  induction fuel with
  | zero =>
    intro n acc h
    have hn : n = 0 := Nat.le_zero.mp h
    subst hn
    rw [natDigitsAux, natVal_cons, charVal_digitChar 0 (by omega)]
  | succ f ih =>
    intro n acc h
    rw [natDigitsAux]
    by_cases h10 : n < 10
    · rw [if_pos h10, natVal_cons, charVal_digitChar n h10]
    · rw [if_neg h10]
      have hle : n / 10 ≤ f := by
        have := Nat.div_lt_self (by omega : 0 < n) (by omega : 1 < 10)
        omega
      rw [ih (n / 10) (digitChar (n % 10) :: acc) hle, natVal_cons,
        charVal_digitChar (n % 10) (Nat.mod_lt _ (by omega)), List.length_cons]
      have hdm : n / 10 * 10 + n % 10 = n := by omega
      calc n / 10 * 10 ^ (acc.length + 1) + (n % 10 * 10 ^ acc.length + natVal acc)
          = (n / 10 * 10 + n % 10) * 10 ^ acc.length + natVal acc := by
            rw [pow_succ]; ring
        _ = n * 10 ^ acc.length + natVal acc := by rw [hdm]

theorem natVal_natDigits (n : ℕ) : natVal (natDigits n) = n := by
  rw [natDigits, natVal_natDigitsAux n n [] le_rfl]
  simp [natVal]

theorem mem_natDigitsAux :
    ∀ fuel n acc, n ≤ fuel → ∀ c ∈ natDigitsAux fuel n acc, c ∈ acc ∨ c.isDigit = true := by
  intro fuel
  induction fuel with
  | zero =>
    intro n acc h c hc
    have hn : n = 0 := Nat.le_zero.mp h
    subst hn
    rw [natDigitsAux] at hc
    rcases List.mem_cons.mp hc with h1 | h1
    · subst h1; exact Or.inr (isDigit_digitChar 0 (by omega))
    · exact Or.inl h1
  | succ f ih =>
    intro n acc h c hc
    rw [natDigitsAux] at hc
    by_cases h10 : n < 10
    · rw [if_pos h10] at hc
      rcases List.mem_cons.mp hc with h1 | h1
      · subst h1; exact Or.inr (isDigit_digitChar n h10)
      · exact Or.inl h1
    · rw [if_neg h10] at hc
      have hle : n / 10 ≤ f := by
        have := Nat.div_lt_self (by omega : 0 < n) (by omega : 1 < 10)
        omega
      rcases ih (n / 10) (digitChar (n % 10) :: acc) hle c hc with h1 | h1
      · rcases List.mem_cons.mp h1 with h2 | h2
        · subst h2; exact Or.inr (isDigit_digitChar _ (Nat.mod_lt _ (by omega)))
        · exact Or.inl h2
      · exact Or.inr h1

theorem mem_natDigits_isDigit (n : ℕ) : ∀ c ∈ natDigits n, c.isDigit = true := by
  intro c hc
  rcases mem_natDigitsAux n n [] le_rfl c hc with h | h
  · exact absurd h (List.not_mem_nil c)
  · exact h

theorem length_natDigitsAux :
    ∀ fuel n acc, n ≤ fuel →
      ∃ k, (natDigitsAux fuel n acc).length = k + acc.length ∧ 1 ≤ k ∧ n < 10 ^ k ∧
        (10 ^ (k - 1) ≤ n ∨ (n = 0 ∧ k = 1)) := by
  intro fuel
  induction fuel with
  | zero =>
    intro n acc h
    have hn : n = 0 := Nat.le_zero.mp h
    subst hn
    exact ⟨1, by rw [natDigitsAux, List.length_cons]; omega, le_rfl, by omega,
      Or.inr ⟨rfl, rfl⟩⟩
  | succ f ih =>
    intro n acc h
    rw [natDigitsAux]
    by_cases h10 : n < 10
    · refine ⟨1, by rw [if_pos h10, List.length_cons]; omega, le_rfl, by omega, ?_⟩
      rcases Nat.eq_zero_or_pos n with h0 | h0
      · exact Or.inr ⟨h0, rfl⟩
      · exact Or.inl (by simpa using h0)
    · rw [if_neg h10]
      have hle : n / 10 ≤ f := by
        have := Nat.div_lt_self (by omega : 0 < n) (by omega : 1 < 10)
        omega
      obtain ⟨k, hlen, hk1, hlt, hge⟩ := ih (n / 10) (digitChar (n % 10) :: acc) hle
      refine ⟨k + 1, ?_, by omega, ?_, ?_⟩
      · rw [hlen, List.length_cons]; omega
      · have hdm : n / 10 * 10 + n % 10 = n := by omega
        have hm : n % 10 < 10 := Nat.mod_lt _ (by omega)
        rw [pow_succ]
        set B := (10 : ℕ) ^ k with hB
        omega
      · rcases hge with h1 | ⟨h1, _⟩
        · left
          have hdm : n / 10 * 10 + n % 10 = n := by omega
          have hmul : 10 ^ (k - 1) * 10 ≤ n / 10 * 10 := Nat.mul_le_mul_right 10 h1
          have hk : 10 ^ (k + 1 - 1) = 10 ^ (k - 1) * 10 := by
            have h6 : k + 1 - 1 = (k - 1) + 1 := by omega
            rw [h6, pow_succ]
          omega
        · exfalso
          have : n / 10 = 0 := h1
          omega

theorem natDigits_length_spec (n : ℕ) :
    1 ≤ (natDigits n).length ∧ n < 10 ^ (natDigits n).length ∧
      (10 ^ ((natDigits n).length - 1) ≤ n ∨ (n = 0 ∧ (natDigits n).length = 1)) := by
  obtain ⟨k, hlen, hk1, hlt, hge⟩ := length_natDigitsAux n n [] le_rfl
  rw [natDigits]
  have hk : (natDigitsAux n n []).length = k := by simpa using hlen
  rw [hk]
  exact ⟨hk1, hlt, hge⟩

theorem isDigit_toNat_bounds (c : Char) (h : c.isDigit = true) :
    48 ≤ c.toNat ∧ c.toNat ≤ 57 := by
  simp [Char.isDigit] at h
  exact ⟨h.1, h.2⟩

theorem charVal_lt_ten (c : Char) (h : c.isDigit = true) : charVal c < 10 := by
  obtain ⟨h1, h2⟩ := isDigit_toNat_bounds c h
  rw [charVal]; omega

theorem charVal_pos_of_ne_zero (c : Char) (h : c.isDigit = true) (hne : c ≠ '0') :
    1 ≤ charVal c := by
  obtain ⟨h1, h2⟩ := isDigit_toNat_bounds c h
  have h48 : c.toNat ≠ 48 := by
    intro he
    apply hne
    have h0 : c = Char.ofNat 48 := by rw [← he]; exact (Char.ofNat_toNat c).symm
    simpa using h0
  rw [charVal]; omega

theorem not_ws_of_isDigit (c : Char) (h : c.isDigit = true) : c.isWhitespace = false := by
  by_contra hw
  have hw2 : c.isWhitespace = true := by
    cases hws : c.isWhitespace
    · exact absurd hws hw
    · rfl
  simp only [Char.isWhitespace, Bool.or_eq_true, decide_eq_true_eq] at hw2
  rcases hw2 with ((h1 | h1) | h1) | h1 <;> subst h1 <;> exact absurd h (by decide)

theorem dropWhile_eq_self_of_all (p : Char → Bool) (l : List Char)
    (h : ∀ c ∈ l, p c = false) : l.dropWhile p = l := by
  cases l with
  | nil => rfl
  | cons a t => simp [List.dropWhile_cons, h a (List.mem_cons_self a t)]

theorem jsTrim_eq_self (l : List Char) (h : ∀ c ∈ l, c.isWhitespace = false) :
    jsTrim l = l := by
  rw [jsTrim, dropWhile_eq_self_of_all _ _ h, dropWhile_eq_self_of_all, List.reverse_reverse]
  intro c hc
  exact h c (List.mem_reverse.mp hc)

theorem takeWhile_append_all (p : Char → Bool) (l1 l2 : List Char)
    (h : ∀ c ∈ l1, p c = true) : (l1 ++ l2).takeWhile p = l1 ++ l2.takeWhile p := by
  induction l1 with
  | nil => simp
  | cons a t ih =>
    simp [List.takeWhile_cons, h a (List.mem_cons_self a t),
      ih fun c hc => h c (List.mem_cons_of_mem a hc)]

theorem dropWhile_append_all (p : Char → Bool) (l1 l2 : List Char)
    (h : ∀ c ∈ l1, p c = true) : (l1 ++ l2).dropWhile p = l2.dropWhile p := by
  induction l1 with
  | nil => simp
  | cons a t ih =>
    simp [List.dropWhile_cons, h a (List.mem_cons_self a t),
      ih fun c hc => h c (List.mem_cons_of_mem a hc)]

theorem takeWhile_eq_self_of_all (p : Char → Bool) (l : List Char)
    (h : ∀ c ∈ l, p c = true) : l.takeWhile p = l := by
  have h2 := takeWhile_append_all p l [] h
  simpa using h2

theorem dropWhile_eq_nil_of_all (p : Char → Bool) (l : List Char)
    (h : ∀ c ∈ l, p c = true) : l.dropWhile p = [] := by
  have h2 := dropWhile_append_all p l [] h
  simpa using h2

theorem head?_dropWhile (p : Char → Bool) (l : List Char) (a : Char)
    (h : (l.dropWhile p).head? = some a) : p a = false := by
  induction l with
  | nil => simp at h
  | cons b t ih =>
    rw [List.dropWhile_cons] at h
    by_cases hb : p b
    · rw [if_pos hb] at h; exact ih h
    · rw [if_neg hb] at h
      simp at h
      subst h
      simpa using hb

theorem lastIdx?_eq_none (l : List Char) (c : Char) (h : c ∉ l) : lastIdx? l c = none := by
  induction l with
  | nil => rfl
  | cons a t ih =>
    have hne : ¬(a = c) := fun he => h (List.mem_cons.mpr (Or.inl he.symm))
    simp only [lastIdx?, ih fun hc => h (List.mem_cons_of_mem a hc), if_neg hne]

theorem lastIdx?_append_cons (d g : List Char) (c : Char) (hg : c ∉ g) :
    lastIdx? (d ++ c :: g) c = some d.length := by
  induction d with
  | nil =>
    rw [List.nil_append, lastIdx?, lastIdx?_eq_none g c hg, if_pos rfl]
    rfl
  | cons a t ih =>
    rw [List.cons_append, lastIdx?, ih, List.length_cons]

/-- The integer part has at most 3 digits exactly when it is below 1000. -/
theorem natDigits_length_le_three_iff (n : ℕ) :
    ((natDigits n).length ≤ 3 ↔ n < 1000) := by
  obtain ⟨h1, h2, h3⟩ := natDigits_length_spec n
  constructor
  · intro h
    have h4 := lt_of_lt_of_le h2 (Nat.pow_le_pow_right (by omega) h)
    norm_num at h4
    exact h4
  · intro h
    by_contra hgt
    rcases h3 with h4 | ⟨h4, h5⟩
    · have h5 : 10 ^ 3 ≤ 10 ^ ((natDigits n).length - 1) :=
        Nat.pow_le_pow_right (by omega) (by omega)
      norm_num at h5
      omega
    · omega

/-- A decimal digit character is none of `'.'`, `','`, `'-'`. -/
theorem isDigit_ne_punct (c : Char) (h : c.isDigit = true) :
    c ≠ '.' ∧ c ≠ ',' ∧ c ≠ '-' := by
  refine ⟨fun he => ?_, fun he => ?_, fun he => ?_⟩ <;>
    (rw [he] at h; exact absurd h (by decide))

theorem isSep_eq_false_of_isDigit (c : Char) (h : c.isDigit = true) :
    isSep c = false := by
  obtain ⟨h1, h2, -⟩ := isDigit_ne_punct c h
  rw [isSep]
  simp only [Bool.or_eq_false_iff, beq_eq_false_iff_ne, ne_eq]
  exact ⟨h1, h2⟩

theorem filter_not_sep_of_digits (l : List Char) (h : ∀ c ∈ l, c.isDigit = true) :
    l.filter (fun c => !isSep c) = l :=
  List.filter_eq_self.mpr fun c hc => by
    simp [isSep_eq_false_of_isDigit c (h c hc)]

theorem filter_keep_of_digits (l : List Char) (h : ∀ c ∈ l, c.isDigit = true) :
    l.filter (fun c => c.isDigit || isSep c) = l :=
  List.filter_eq_self.mpr fun c hc => by
    show (c.isDigit || isSep c) = true
    rw [h c hc]
    rfl

theorem filter_not_ws (l : List Char) (h : ∀ c ∈ l, c.isWhitespace = false) :
    l.filter (fun c => !c.isWhitespace) = l :=
  List.filter_eq_self.mpr fun c hc => by
    simp [h c hc]

/-- Half-up rounding at `k` decimals is exact when the denominator divides the
scaling power (`d * c` stands for `10 ^ k`). -/
theorem round_half_exact (n d c : ℕ) (hd : 0 < d) :
    (2 * n * (d * c) + d) / (2 * d) = n * c := by
  have h1 : 2 * n * (d * c) + d = d * (2 * (n * c) + 1) := by ring
  have h2 : 2 * d = d * 2 := by ring
  rw [h1, h2, Nat.mul_div_mul_left _ _ hd]
  omega

/-- With `10 ^ 6 = a.den * c`, both the rounded numerator of `toFixedDigits`
and the exact scaled numerator equal `a.num.toNat * c`. -/
theorem exact_fixed_num (a : ℚ) {c : ℕ} (hc : 10 ^ 6 = a.den * c) :
    (2 * a.num.toNat * 10 ^ 6 + a.den) / (2 * a.den) = a.num.toNat * c ∧
    a.num.toNat * 10 ^ 6 / a.den = a.num.toNat * c := by
  have hd : 0 < a.den := a.pos
  constructor
  · rw [hc]
    exact round_half_exact _ _ _ hd
  · rw [hc, show a.num.toNat * (a.den * c) = a.den * (a.num.toNat * c) by ring,
      Nat.mul_div_cancel_left _ hd]

/-- Cast form of the exact scaled numerator: `a.num.toNat * c = a * 10 ^ 6`
in `ℚ` for nonnegative `a` with `10 ^ 6 = a.den * c`. -/
theorem exact_fixed_cast (a : ℚ) (h0 : 0 ≤ a) {c : ℕ} (hc : 10 ^ 6 = a.den * c) :
    ((a.num.toNat * c : ℕ) : ℚ) = a * 10 ^ 6 := by
  have hnum : (0 : ℤ) ≤ a.num := Rat.num_nonneg.mpr h0
  have hden : ((a.den : ℚ)) ≠ 0 := by
    have h1 := a.pos
    positivity
  have hcQ : ((10 : ℚ) ^ 6) = (a.den : ℚ) * (c : ℚ) := by exact_mod_cast hc
  have ha : (a.num : ℚ) = a * a.den := by
    have h1 := Rat.num_div_den a
    rw [div_eq_iff hden] at h1
    exact h1
  have htn : ((a.num.toNat : ℕ) : ℚ) = (a.num : ℚ) := by
    exact_mod_cast Int.toNat_of_nonneg hnum
  push_cast
  rw [htn, ha, hcQ]
  ring

/-- Split any character list into a prefix not ending in `'0'` and the maximal
run of trailing `'0'`s. -/
theorem exists_trailing_zeros (l : List Char) :
    ∃ g t, l = g ++ List.replicate t '0' ∧ g.getLast? ≠ some '0' := by
  refine ⟨(l.reverse.dropWhile (fun c => c == '0')).reverse,
      (l.reverse.takeWhile (fun c => c == '0')).length, ?_, ?_⟩
  · have h1 : l.reverse.takeWhile (fun c => c == '0') =
        List.replicate (l.reverse.takeWhile (fun c => c == '0')).length '0' := by
      rw [List.eq_replicate_iff]
      refine ⟨rfl, fun b hb => ?_⟩
      have h2 := List.mem_takeWhile_imp hb
      simpa using h2
    have h3 : l.reverse.takeWhile (fun c => c == '0') ++
        l.reverse.dropWhile (fun c => c == '0') = l.reverse :=
      List.takeWhile_append_dropWhile _ _
    calc l = l.reverse.reverse := (List.reverse_reverse l).symm
      _ = (l.reverse.takeWhile (fun c => c == '0') ++
            l.reverse.dropWhile (fun c => c == '0')).reverse := by rw [h3]
      _ = (l.reverse.dropWhile (fun c => c == '0')).reverse ++
            (l.reverse.takeWhile (fun c => c == '0')).reverse := by
          rw [List.reverse_append]
      _ = (l.reverse.dropWhile (fun c => c == '0')).reverse ++
            List.replicate (l.reverse.takeWhile (fun c => c == '0')).length '0' := by
          conv_lhs => rw [h1, List.reverse_replicate]
  · rw [List.getLast?_reverse]
    cases hh : (l.reverse.dropWhile (fun c => c == '0')).head? with
    | none => simp
    | some a =>
      have h3 := head?_dropWhile _ _ _ hh
      simp only [beq_eq_false_iff_ne, ne_eq] at h3
      simp [h3]

/-- Structure of the padded 6-digit fractional block of a nonzero `f < 10^6`:
a non-empty digit prefix `g` whose value is not a multiple of 10, followed by
`t` trailing zeros, with `natVal g * 10 ^ t = f` and `g.length + t = 6`. -/
theorem pad_frac_decomp (f : ℕ) (hf0 : 0 < f) (hf : f < 10 ^ 6) :
    ∃ g t, padZeros 6 (natDigits f) = g ++ List.replicate t '0' ∧
      g ≠ [] ∧ (∀ c ∈ g, c.isDigit = true) ∧ g.length + t = 6 ∧
      natVal g * 10 ^ t = f ∧ ¬10 ∣ natVal g ∧ g.getLast? ≠ some '0' := by
  obtain ⟨g, t, hsplit, hlast⟩ := exists_trailing_zeros (padZeros 6 (natDigits f))
  have hlen6 : (padZeros 6 (natDigits f)).length = 6 := by
    rw [padZeros, List.length_append, List.length_replicate]
    have h1 := (natDigits_length_spec f).1
    rcases (natDigits_length_spec f).2.2 with h3 | ⟨hz, -⟩
    · have hlt : (natDigits f).length - 1 < 6 := by
        by_contra hcon
        have h4 : (10 : ℕ) ^ 6 ≤ 10 ^ ((natDigits f).length - 1) :=
          Nat.pow_le_pow_right (by omega) (by omega)
        omega
      omega
    · omega
  have hval : natVal (padZeros 6 (natDigits f)) = f := by
    rw [natVal_padZeros, natVal_natDigits]
  have hdig : ∀ c ∈ padZeros 6 (natDigits f), c.isDigit = true := by
    intro c hc
    rw [padZeros] at hc
    rcases List.mem_append.mp hc with h | h
    · rw [List.eq_of_mem_replicate h]
      decide
    · exact mem_natDigits_isDigit f c h
  have hgd : ∀ c ∈ g, c.isDigit = true := fun c hc =>
    hdig c (hsplit ▸ List.mem_append.mpr (Or.inl hc))
  have hval2 : natVal g * 10 ^ t = f := by
    have h := hval
    rw [hsplit, natVal_append, natVal_replicate_zero, List.length_replicate] at h
    omega
  have hlen : g.length + t = 6 := by
    have h := hlen6
    rw [hsplit, List.length_append, List.length_replicate] at h
    omega
  have hgne : g ≠ [] := by
    intro he
    rw [he] at hval2
    simp [natVal] at hval2
    omega
  have hnd : ¬10 ∣ natVal g := by
    have hg2 : g.dropLast ++ [g.getLast hgne] = g := List.dropLast_append_getLast hgne
    have hcm : g.getLast hgne ∈ g := List.getLast_mem hgne
    have hcd : (g.getLast hgne).isDigit = true := hgd _ hcm
    have hcne : g.getLast hgne ≠ '0' :=
      fun he => hlast (by rw [List.getLast?_eq_getLast g hgne, he])
    have hone : natVal [g.getLast hgne] = charVal (g.getLast hgne) := by
      rw [natVal_cons]
      simp [natVal]
    have hmod : natVal g % 10 = charVal (g.getLast hgne) := by
      conv_lhs => rw [← hg2]
      rw [natVal_append, hone, List.length_cons, List.length_nil, pow_one]
      have h2 := charVal_lt_ten _ hcd
      omega
    intro hdvd
    have h5 := charVal_pos_of_ne_zero _ hcd hcne
    omega
  exact ⟨g, t, hsplit, hgne, hgd, hlen, hval2, hnd, hlast⟩

/-- `trimFixed` on an all-zero fractional block drops the block and the dot. -/
theorem trimFixed_all_zeros (D : List Char) (t : ℕ) (ht : 0 < t) :
    trimFixed (D ++ '.' :: List.replicate t '0') = D := by
  have hrev : (D ++ '.' :: List.replicate t '0').reverse =
      List.replicate t '0' ++ '.' :: D.reverse := by
    rw [List.reverse_append, List.reverse_cons, List.reverse_replicate, List.append_assoc,
      List.singleton_append]
  have hlast : (D ++ '.' :: List.replicate t '0').getLast? = some '0' := by
    rw [← List.head?_reverse, hrev]
    cases t with
    | zero => omega
    | succ n => rw [List.replicate_succ]; rfl
  have hdw : (D ++ '.' :: List.replicate t '0').reverse.dropWhile (fun c => c == '0') =
      '.' :: D.reverse := by
    rw [hrev, dropWhile_append_all _ _ _ fun c hc => by rw [List.eq_of_mem_replicate hc]; rfl]
    rfl
  rw [trimFixed, if_pos hlast]
  simp [hdw]

/-- `trimFixed` keeps the integer digits, the dot, and the fractional digit
prefix, stripping exactly the trailing-zero run. -/
theorem trimFixed_frac (D g : List Char) (t : ℕ) (hg : g ≠ [])
    (hlast : g.getLast? ≠ some '0') (hdot : g.getLast? ≠ some '.') :
    trimFixed (D ++ '.' :: (g ++ List.replicate t '0')) = D ++ '.' :: g := by
  obtain ⟨a, g', hag⟩ : ∃ a g', g.reverse = a :: g' := by
    cases hgr : g.reverse with
    | nil => exact absurd (List.reverse_eq_nil_iff.mp hgr) hg
    | cons a g' => exact ⟨a, g', rfl⟩
  have ha_last : g.getLast? = some a := by
    rw [← List.head?_reverse, hag]
    rfl
  have haz : a ≠ '0' := fun he => hlast (by rw [ha_last, he])
  have had : a ≠ '.' := fun he => hdot (by rw [ha_last, he])
  have hgeq : g = g'.reverse ++ [a] := by
    rw [← List.reverse_reverse g, hag, List.reverse_cons]
  cases t with
  | zero =>
    rw [List.replicate_zero, List.append_nil]
    have hl : (D ++ '.' :: g).getLast? = some a := by
      rw [← List.head?_reverse, List.reverse_append, List.reverse_cons, hag]
      simp
    rw [trimFixed, if_neg (show ¬((D ++ '.' :: g).getLast? = some '0') from by
      rw [hl]; simp [haz])]
  | succ n =>
    have hrev : (D ++ '.' :: (g ++ List.replicate (n + 1) '0')).reverse =
        List.replicate (n + 1) '0' ++ (a :: (g' ++ '.' :: D.reverse)) := by
      rw [List.reverse_append, List.reverse_cons, List.reverse_append, List.reverse_replicate,
        hag]
      simp [List.append_assoc]
    have hlast0 : (D ++ '.' :: (g ++ List.replicate (n + 1) '0')).getLast? = some '0' := by
      rw [← List.head?_reverse, hrev, List.replicate_succ]
      rfl
    have hdw : (D ++ '.' :: (g ++ List.replicate (n + 1) '0')).reverse.dropWhile
        (fun c => c == '0') = a :: (g' ++ '.' :: D.reverse) := by
      rw [hrev, dropWhile_append_all _ _ _ fun c hc => by rw [List.eq_of_mem_replicate hc]; rfl,
        List.dropWhile_cons, if_neg (by simp [haz])]
    rw [trimFixed, if_pos hlast0]
    simp only [hdw]
    rw [if_neg (by simp [had]), List.reverse_cons, List.reverse_append, List.reverse_cons,
      List.reverse_reverse]
    rw [hgeq]
    simp [List.append_assoc]

/-- `parseSmartCore` on a canonical decimal-comma literal `d1 "," d2` (all
digits, `d1` nonempty) that does not match the thousands heuristic. -/
theorem parseSmartCore_dec (d1 d2 : List Char) (sgn : ℤ)
    (h1 : ∀ c ∈ d1, c.isDigit = true) (h2 : ∀ c ∈ d2, c.isDigit = true)
    (hd1 : d1 ≠ []) (hd2 : d2 ≠ [])
    (hnh : ¬(d2.length = 3 ∧ d1.length ≤ 3)) :
    V1.parseSmartCore (d1 ++ ',' :: d2) sgn = decLitVal sgn d1 d2 0 := by
  have hnc1 : ',' ∉ d1 := fun hc => (isDigit_ne_punct _ (h1 _ hc)).2.1 rfl
  have hnc2 : ',' ∉ d2 := fun hc => (isDigit_ne_punct _ (h2 _ hc)).2.1 rfl
  have hnd : '.' ∉ d1 ++ ',' :: d2 := by
    intro hc
    rcases List.mem_append.mp hc with h | h
    · exact (isDigit_ne_punct _ (h1 _ h)).1 rfl
    · rcases List.mem_cons.mp h with h | h
      · exact absurd h.symm (by decide)
      · exact (isDigit_ne_punct _ (h2 _ h)).1 rfl
  have hdot : lastIdx? (d1 ++ ',' :: d2) '.' = none := lastIdx?_eq_none _ _ hnd
  have hcomma : lastIdx? (d1 ++ ',' :: d2) ',' = some d1.length :=
    lastIdx?_append_cons d1 d2 ',' hnc2
  have hdrop : (d1 ++ ',' :: d2).drop (d1.length + 1) = d2 := by
    have h3 : (d1 ++ [',']).length = d1.length + 1 := by simp
    rw [List.append_cons, ← h3, List.drop_left]
  have htake : (d1 ++ ',' :: d2).take d1.length = d1 := List.take_left d1 _
  have hP : ¬((d1 ++ ',' :: d2).count ',' = 1 ∧ d2.length = 3 ∧
      0 < d1.length ∧ d1.length ≤ 3) := by
    rintro ⟨-, hl3, -, hle⟩
    exact hnh ⟨hl3, hle⟩
  simp only [V1.parseSmartCore, hdot, hcomma, if_neg hP, Option.getD_some, htake, hdrop,
    filter_not_sep_of_digits d1 h1, filter_not_sep_of_digits d2 h2]

/-- `parseSmartCore` on pure digits. -/
theorem parseSmartCore_int (d1 : List Char) (sgn : ℤ)
    (h1 : ∀ c ∈ d1, c.isDigit = true) :
    V1.parseSmartCore d1 sgn = decLitVal sgn d1 [] 0 := by
  have hnd : '.' ∉ d1 := fun hc => (isDigit_ne_punct _ (h1 _ hc)).1 rfl
  have hnc : ',' ∉ d1 := fun hc => (isDigit_ne_punct _ (h1 _ hc)).2.1 rfl
  simp only [V1.parseSmartCore, lastIdx?_eq_none _ _ hnd, lastIdx?_eq_none _ _ hnc,
    filter_not_sep_of_digits d1 h1]

/-- A digit-or-separator character is not whitespace and not `'-'`. -/
theorem keep_char_classes (c : Char) (h : (c.isDigit || isSep c) = true) :
    c.isWhitespace = false ∧ c ≠ '-' := by
  have h2 : c.isDigit = true ∨ isSep c = true := by simpa using h
  rcases h2 with h2 | h2
  · exact ⟨not_ws_of_isDigit c h2, (isDigit_ne_punct c h2).2.2⟩
  · have h3 : c = '.' ∨ c = ',' := by simpa [isSep] using h2
    rcases h3 with h3 | h3 <;> subst h3 <;> exact ⟨by decide, by decide⟩

/-- On whitespace-free strings of digits and separators with an optional
leading minus, `parseSmartStr` reduces to `parseSmartCore`. -/
theorem parseSmartStr_clean (body : List Char) (neg : Bool)
    (hb : ∀ c ∈ body, (c.isDigit || isSep c) = true) (hne : body ≠ []) :
    V1.parseSmartStr (String.mk ((if neg then ['-'] else []) ++ body)) =
      V1.parseSmartCore body (if neg then -1 else 1) := by
  have hcw : ∀ c ∈ body, c.isWhitespace = false := fun c hc =>
    (keep_char_classes c (hb c hc)).1
  have hfilter : body.filter (fun c => c.isDigit || isSep c) = body :=
    List.filter_eq_self.mpr hb
  have htrim : jsTrim body = body := jsTrim_eq_self _ hcw
  cases neg with
  | false =>
    obtain ⟨a, b', hab⟩ : ∃ a b', body = a :: b' := by
      cases body with
      | nil => exact absurd rfl hne
      | cons a b' => exact ⟨a, b', rfl⟩
    have hane : a ≠ '-' := (keep_char_classes a (hb a (hab ▸ List.mem_cons_self a b'))).2
    have hhead : ¬(body.head? = some '-') := by
      rw [hab]
      simp [hane]
    rw [V1.parseSmartStr]
    simp only [Bool.false_eq_true, if_false, List.nil_append, htrim, if_neg hne,
      filter_not_ws _ hcw, if_neg hhead, hfilter]
  | true =>
    have hcw2 : ∀ c ∈ '-' :: body, c.isWhitespace = false := by
      intro c hc
      rcases List.mem_cons.mp hc with h | h
      · subst h; decide
      · exact hcw c h
    have htrim2 : jsTrim ('-' :: body) = '-' :: body := jsTrim_eq_self _ hcw2
    rw [V1.parseSmartStr]
    simp only [eq_self_iff_true, if_true, List.singleton_append, htrim2,
      if_neg (List.cons_ne_nil '-' body), filter_not_ws _ hcw2, List.head?_cons,
      List.tail_cons, hfilter, if_neg hne, if_pos rfl, Option.some.injEq]

/-- `parseSmartStr` on a canonically rendered decimal-comma literal that does
not match the thousands heuristic. -/
theorem parseSmartStr_dec (d1 d2 : List Char) (neg : Bool)
    (h1 : ∀ c ∈ d1, c.isDigit = true) (h2 : ∀ c ∈ d2, c.isDigit = true)
    (hd1 : d1 ≠ []) (hd2 : d2 ≠ [])
    (hnh : ¬(d2.length = 3 ∧ d1.length ≤ 3)) :
    V1.parseSmartStr (String.mk ((if neg then ['-'] else []) ++ (d1 ++ ',' :: d2))) =
      decLitVal (if neg then -1 else 1) d1 d2 0 := by
  have hkeep : ∀ c ∈ d1 ++ ',' :: d2, (c.isDigit || isSep c) = true := by
    intro c hc
    rcases List.mem_append.mp hc with h | h
    · rw [h1 c h]; rfl
    · rcases List.mem_cons.mp h with h | h
      · subst h; decide
      · rw [h2 c h]; rfl
  have hsne : d1 ++ ',' :: d2 ≠ [] := by
    intro he
    exact absurd (List.append_eq_nil.mp he).2 (List.cons_ne_nil _ _)
  rw [parseSmartStr_clean (d1 ++ ',' :: d2) neg hkeep hsne,
    parseSmartCore_dec d1 d2 _ h1 h2 hd1 hd2 hnh]

/-- `parseSmartStr` on a canonically rendered signed integer. -/
theorem parseSmartStr_int (d1 : List Char) (neg : Bool)
    (h1 : ∀ c ∈ d1, c.isDigit = true) (hd1 : d1 ≠ []) :
    V1.parseSmartStr (String.mk ((if neg then ['-'] else []) ++ d1)) =
      decLitVal (if neg then -1 else 1) d1 [] 0 := by
  rw [parseSmartStr_clean d1 neg (fun c hc => by rw [h1 c hc]; rfl) hd1,
    parseSmartCore_int d1 _ h1]

theorem replaceFirst_append_cons (l r : List Char) (a b : Char) (hl : a ∉ l) :
    replaceFirst (l ++ a :: r) a b = l ++ b :: r := by
  induction l with
  | nil =>
    rw [List.nil_append]
    simp only [replaceFirst, if_pos rfl]
    rfl
  | cons c t ih =>
    rw [List.cons_append]
    simp only [replaceFirst,
      if_neg (show ¬(c = a) from fun he => hl (List.mem_cons.mpr (Or.inl he.symm)))]
    rw [ih fun hc => hl (List.mem_cons_of_mem c hc), List.cons_append]

theorem replaceFirst_no_occ (l : List Char) (a b : Char) (hl : a ∉ l) :
    replaceFirst l a b = l := by
  induction l with
  | nil => rfl
  | cons c t ih =>
    simp only [replaceFirst,
      if_neg (show ¬(c = a) from fun he => hl (List.mem_cons.mpr (Or.inl he.symm)))]
    rw [ih fun hc => hl (List.mem_cons_of_mem c hc)]

/-- `jsNumber` on a canonical signed decimal-dot literal. -/
theorem jsNumber_dec (d1 d2 : List Char) (neg : Bool)
    (h1 : ∀ c ∈ d1, c.isDigit = true) (h2 : ∀ c ∈ d2, c.isDigit = true)
    (hd1 : d1 ≠ []) :
    jsNumber (String.mk ((if neg then ['-'] else []) ++ (d1 ++ '.' :: d2))) =
      decLitVal (if neg then -1 else 1) d1 d2 0 := by
  have hws : ∀ c ∈ d1 ++ '.' :: d2, c.isWhitespace = false := by
    intro c hc
    rcases List.mem_append.mp hc with h | h
    · exact not_ws_of_isDigit c (h1 c h)
    · rcases List.mem_cons.mp h with h | h
      · subst h; decide
      · exact not_ws_of_isDigit c (h2 c h)
  have htrim : jsTrim (d1 ++ '.' :: d2) = d1 ++ '.' :: d2 := jsTrim_eq_self _ hws
  have htw : (d1 ++ '.' :: d2).takeWhile Char.isDigit = d1 := by
    rw [takeWhile_append_all _ _ _ h1]
    simp
  have hdw : (d1 ++ '.' :: d2).dropWhile Char.isDigit = '.' :: d2 := by
    rw [dropWhile_append_all _ _ _ h1, List.dropWhile_cons, if_neg (by decide)]
  have htw2 : d2.takeWhile Char.isDigit = d2 := takeWhile_eq_self_of_all _ _ h2
  have hdw2 : d2.dropWhile Char.isDigit = [] := dropWhile_eq_nil_of_all _ _ h2
  have hlen : ¬(d1.length = 0 ∧ d2.length = 0) := by
    rintro ⟨h, -⟩
    exact hd1 (List.length_eq_zero.mp h)
  obtain ⟨a, b', hab⟩ : ∃ a b', d1 = a :: b' := by
    cases d1 with
    | nil => exact absurd rfl hd1
    | cons a b' => exact ⟨a, b', rfl⟩
  have hap : a ≠ '+' := fun he => by
    have h3 := h1 a (hab ▸ List.mem_cons_self a b')
    rw [he] at h3
    exact absurd h3 (by decide)
  have ham : a ≠ '-' := (isDigit_ne_punct a (h1 a (hab ▸ List.mem_cons_self a b'))).2.2
  have hlt : ¬((d1 ++ '.' :: d2).length = 0) := by simp [hab]
  have hr1len : ¬(('.' :: d2).length = 0) := by simp
  have hr1head : ('.' :: d2).head? = some '.' := rfl
  cases neg with
  | false =>
    have hhp : ¬((d1 ++ '.' :: d2).head? = some '+') := by
      rw [hab]
      simp [hap]
    have hhm : ¬((d1 ++ '.' :: d2).head? = some '-') := by
      rw [hab]
      simp [ham]
    rw [jsNumber]
    simp only [Bool.false_eq_true, if_false, List.nil_append, htrim, if_neg hlt,
      if_neg hhp, if_neg hhm, htw, hdw, if_neg hr1len, hr1head, Option.some.injEq,
      eq_self_iff_true, if_true, List.tail_cons, htw2, hdw2, if_neg hlen, jsExpVal]
  | true =>
    have hws2 : ∀ c ∈ '-' :: (d1 ++ '.' :: d2), c.isWhitespace = false := by
      intro c hc
      rcases List.mem_cons.mp hc with h | h
      · subst h; decide
      · exact hws c h
    have htrim2 : jsTrim ('-' :: (d1 ++ '.' :: d2)) = '-' :: (d1 ++ '.' :: d2) :=
      jsTrim_eq_self _ hws2
    have hlt2 : ¬(('-' :: (d1 ++ '.' :: d2)).length = 0) := by simp
    have hhp2 : ¬(('-' :: (d1 ++ '.' :: d2)).head? = some '+') := by simp
    have hcf : (('-' : Char) = '+') = False := eq_false (by decide)
    rw [jsNumber]
    simp only [eq_self_iff_true, if_true, List.singleton_append, htrim2, if_neg hlt2,
      if_neg hhp2, List.head?_cons, Option.some.injEq, hcf, if_false, if_pos rfl,
      List.tail_cons, htw, hdw, if_neg hr1len, hr1head, htw2, hdw2, if_neg hlen, jsExpVal]

/-- `jsNumber` on a canonical signed integer literal. -/
theorem jsNumber_int (d1 : List Char) (neg : Bool)
    (h1 : ∀ c ∈ d1, c.isDigit = true) (hd1 : d1 ≠ []) :
    jsNumber (String.mk ((if neg then ['-'] else []) ++ d1)) =
      decLitVal (if neg then -1 else 1) d1 [] 0 := by
  have hws : ∀ c ∈ d1, c.isWhitespace = false := fun c hc => not_ws_of_isDigit c (h1 c hc)
  have htrim : jsTrim d1 = d1 := jsTrim_eq_self _ hws
  have htw : d1.takeWhile Char.isDigit = d1 := takeWhile_eq_self_of_all _ _ h1
  have hdw : d1.dropWhile Char.isDigit = [] := dropWhile_eq_nil_of_all _ _ h1
  have hlen : ¬(d1.length = 0) := fun h => hd1 (List.length_eq_zero.mp h)
  obtain ⟨a, b', hab⟩ : ∃ a b', d1 = a :: b' := by
    cases d1 with
    | nil => exact absurd rfl hd1
    | cons a b' => exact ⟨a, b', rfl⟩
  have hap : a ≠ '+' := fun he => by
    have h3 := h1 a (hab ▸ List.mem_cons_self a b')
    rw [he] at h3
    exact absurd h3 (by decide)
  have ham : a ≠ '-' := (isDigit_ne_punct a (h1 a (hab ▸ List.mem_cons_self a b'))).2.2
  cases neg with
  | false =>
    have hhp : ¬(d1.head? = some '+') := by
      rw [hab]
      simp [hap]
    have hhm : ¬(d1.head? = some '-') := by
      rw [hab]
      simp [ham]
    rw [jsNumber]
    simp only [Bool.false_eq_true, if_false, List.nil_append, htrim, if_neg hlen,
      if_neg hhp, if_neg hhm, htw, hdw, List.length_nil, eq_self_iff_true, if_true,
      if_neg hlen]
  | true =>
    have hws2 : ∀ c ∈ '-' :: d1, c.isWhitespace = false := by
      intro c hc
      rcases List.mem_cons.mp hc with h | h
      · subst h; decide
      · exact hws c h
    have htrim2 : jsTrim ('-' :: d1) = '-' :: d1 := jsTrim_eq_self _ hws2
    have hlt2 : ¬(('-' :: d1).length = 0) := by simp
    have hhp2 : ¬(('-' :: d1).head? = some '+') := by simp
    have hcf : (('-' : Char) = '+') = False := eq_false (by decide)
    rw [jsNumber]
    simp only [eq_self_iff_true, if_true, List.singleton_append, htrim2, if_neg hlt2,
      if_neg hhp2, List.head?_cons, Option.some.injEq, hcf, if_false, if_pos rfl,
      List.tail_cons, htw, hdw, List.length_nil, if_neg hlen]

/-- Mapping `'.' ↦ ','` is the identity on digit lists. -/
theorem map_dot_comma_digits (l : List Char) (h : ∀ c ∈ l, c.isDigit = true) :
    l.map (fun c => if c = '.' then ',' else c) = l := by
  induction l with
  | nil => rfl
  | cons a t ih =>
    rw [List.map_cons, if_neg (isDigit_ne_punct a (h a (List.mem_cons_self a t))).1,
      ih fun c hc => h c (List.mem_cons_of_mem a hc)]

/-- Mapping `'.' ↦ ','` on a rendered decimal replaces exactly the separator. -/
theorem map_dot_comma_split (D g : List Char) (hD : ∀ c ∈ D, c.isDigit = true)
    (hg : ∀ c ∈ g, c.isDigit = true) :
    (D ++ '.' :: g).map (fun c => if c = '.' then ',' else c) = D ++ ',' :: g := by
  rw [List.map_append, map_dot_comma_digits D hD, List.map_cons, if_pos rfl,
    map_dot_comma_digits g hg]

/-- Value of the canonically rendered digits: with `M = a * 10 ^ 6`, the
reassembled literal over the integer digits of `M / 10 ^ 6` and the trimmed
fractional digit prefix `g` recovers `sgn * a`. -/
theorem decLitVal_canonical (M : ℕ) (a : ℚ) (hM : ((M : ℕ) : ℚ) = a * 10 ^ 6)
    (g : List Char) (t : ℕ) (hval : natVal g * 10 ^ t = M % 10 ^ 6)
    (hlen : g.length + t = 6) (sgn : ℤ) :
    decLitVal sgn (natDigits (M / 10 ^ 6)) g 0 = (sgn : ℚ) * a := by
  set I := M / 10 ^ 6 with hII
  have hkey : (I * 10 ^ g.length + natVal g) * 10 ^ t = M := by
    have h1 : 10 ^ 6 * (M / 10 ^ 6) + M % 10 ^ 6 = M := Nat.div_add_mod M (10 ^ 6)
    have h2 : (10 : ℕ) ^ g.length * 10 ^ t = 10 ^ 6 := by rw [← pow_add, hlen]
    calc (I * 10 ^ g.length + natVal g) * 10 ^ t
        = I * (10 ^ g.length * 10 ^ t) + natVal g * 10 ^ t := by ring
      _ = 10 ^ 6 * (M / 10 ^ 6) + M % 10 ^ 6 := by rw [h2, hval, hII]; ring
      _ = M := h1
  have h6 : ((10 : ℚ) ^ g.length) * 10 ^ t = 10 ^ 6 := by
    rw [← pow_add, hlen]
  have hcast : ((I : ℕ) : ℚ) * 10 ^ g.length + (natVal g : ℚ) = a * 10 ^ g.length := by
    have h3 := congrArg (fun n : ℕ => (n : ℚ)) hkey
    push_cast at h3
    rw [hM] at h3
    have hpt : ((10 : ℚ) ^ t) ≠ 0 := by positivity
    apply mul_right_cancel₀ hpt
    linear_combination h3 - a * h6
  rw [decLitVal, natVal_natDigits,
    show ((0 : ℤ)).toNat = 0 from rfl, show ((-(0 : ℤ))).toNat = 0 from rfl, pow_zero,
    mul_one, add_zero, Rat.divInt_eq_div]
  push_cast
  rw [div_eq_iff (show ((10 : ℚ) ^ g.length) ≠ 0 by positivity)]
  linear_combination (sgn : ℚ) * hcast

/-- Core of the C6 round trip: a value with at most 6 decimals whose canonical
rendering does not trip the thousands heuristic is parsed back exactly from
its `formatForInput` rendering (variant 1). -/
theorem parse_format_num (x : ℚ) (hden : x.den ∣ 10 ^ 6)
    (hh : V1.heuristicTrips x = false) :
    V1.parseSmartStr (V1.formatForInput (.num x)) = x := by
  have ha0 : (0 : ℚ) ≤ (if x < 0 then -x else x) := by
    by_cases hx : x < 0
    · rw [if_pos hx]; linarith
    · rw [if_neg hx]; linarith
  set a := if x < 0 then -x else x with haa
  have hdena : a.den ∣ 10 ^ 6 := by
    rw [haa]
    by_cases hx : x < 0
    · rw [if_pos hx, Rat.neg_den]; exact hden
    · rw [if_neg hx]; exact hden
  obtain ⟨cc, hcc⟩ := hdena
  have hm1 := (exact_fixed_num a hcc).1
  have hm2 := (exact_fixed_num a hcc).2
  have hM : ((a.num.toNat * cc : ℕ) : ℚ) = a * 10 ^ 6 := exact_fixed_cast a ha0 hcc
  have htfd : toFixedDigits x 6 =
      natDigits (a.num.toNat * cc / 10 ^ 6) ++ '.' ::
        padZeros 6 (natDigits (a.num.toNat * cc % 10 ^ 6)) := by
    simp only [toFixedDigits, ← haa]
    rw [hm1]
  set M := a.num.toNat * cc with hMM
  set f := M % 10 ^ 6 with hff
  have hfle : f < 10 ^ 6 := by
    rw [hff]
    exact Nat.mod_lt _ (by norm_num)
  have hDdig := mem_natDigits_isDigit (M / 10 ^ 6)
  have hDne : natDigits (M / 10 ^ 6) ≠ [] := by
    have h1 := (natDigits_length_spec (M / 10 ^ 6)).1
    intro he
    rw [he] at h1
    simp at h1
  have hfmt : V1.formatForInput (.num x) =
      String.mk ((if x < 0 then ['-'] else []) ++
        (trimFixed (toFixedDigits x 6)).map fun c => if c = '.' then ',' else c) := rfl
  by_cases hf0 : f = 0
  · have hpad : padZeros 6 (natDigits f) = List.replicate 6 '0' := by
      rw [hf0]
      decide
    have htrim : trimFixed (toFixedDigits x 6) = natDigits (M / 10 ^ 6) := by
      rw [htfd, hpad, trimFixed_all_zeros _ 6 (by omega)]
    have hcan := decLitVal_canonical M a hM [] 6
      (by rw [show natVal [] = 0 from rfl, ← hff, hf0]; ring) (by simp)
    by_cases hx : x < 0
    · have hp := parseSmartStr_int (natDigits (M / 10 ^ 6)) true hDdig hDne
      simp only [eq_self_iff_true, if_true, List.singleton_append] at hp
      rw [hfmt, htrim, map_dot_comma_digits _ hDdig, if_pos hx]
      simp only [List.singleton_append]
      rw [hp, hcan (-1), haa, if_pos hx]
      push_cast
      ring
    · have hp := parseSmartStr_int (natDigits (M / 10 ^ 6)) false hDdig hDne
      simp only [Bool.false_eq_true, if_false, List.nil_append] at hp
      rw [hfmt, htrim, map_dot_comma_digits _ hDdig, if_neg hx]
      simp only [List.nil_append]
      rw [hp, hcan 1, haa, if_neg hx]
      push_cast
      ring
  · obtain ⟨g, t, hsplit, hgne, hgd, hlen, hval2, hnd10, hglast⟩ :=
      pad_frac_decomp f (Nat.pos_of_ne_zero hf0) hfle
    have hdotg : g.getLast? ≠ some '.' := by
      intro he
      rw [List.getLast?_eq_getLast g hgne, Option.some.injEq] at he
      have h4 := List.getLast_mem hgne
      rw [he] at h4
      exact absurd (hgd _ h4) (by decide)
    have htrim : trimFixed (toFixedDigits x 6) = natDigits (M / 10 ^ 6) ++ '.' :: g := by
      rw [htfd, hsplit, trimFixed_frac _ _ _ hgne hglast hdotg]
    have hnh : ¬(g.length = 3 ∧ (natDigits (M / 10 ^ 6)).length ≤ 3) := by
      rintro ⟨hg3, hD3⟩
      have ht3 : t = 3 := by omega
      have hdvd3 : 10 ^ 3 ∣ f := by
        rw [← hval2, ht3]
        exact Dvd.intro_left _ rfl
      have hndvd4 : ¬10 ^ 4 ∣ f := by
        intro hd4
        rw [← hval2, ht3] at hd4
        obtain ⟨k, hk⟩ := hd4
        apply hnd10
        refine ⟨k, ?_⟩
        have h9 : natVal g * 10 ^ 3 = 10 * k * 10 ^ 3 := by rw [hk]; ring
        exact Nat.eq_of_mul_eq_mul_right (by norm_num) h9
      have hI3 : M / 10 ^ 6 < 1000 := (natDigits_length_le_three_iff _).mp hD3
      have htr : V1.heuristicTrips x = true := by
        rw [V1.heuristicTrips]
        simp only [← haa]
        rw [hm2, ← hff]
        have e1 : f % 10 ^ 3 = 0 := Nat.mod_eq_zero_of_dvd hdvd3
        have e2 : ¬(f % 10 ^ 4 = 0) := fun he => hndvd4 (Nat.dvd_of_mod_eq_zero he)
        simp [e1, e2, hf0, hI3]
        norm_num at e1 e2 hI3
        exact ⟨⟨e1, e2⟩, hI3⟩
      rw [htr] at hh
      exact absurd hh (by decide)
    have hvalM : natVal g * 10 ^ t = M % 10 ^ 6 := by
      rw [← hff]
      exact hval2
    have hcan := decLitVal_canonical M a hM g t hvalM hlen
    by_cases hx : x < 0
    · have hp := parseSmartStr_dec (natDigits (M / 10 ^ 6)) g true hDdig hgd hDne hgne hnh
      simp only [eq_self_iff_true, if_true, List.singleton_append] at hp
      rw [hfmt, htrim, map_dot_comma_split _ _ hDdig hgd, if_pos hx]
      simp only [List.singleton_append]
      rw [hp, hcan (-1), haa, if_pos hx]
      push_cast
      ring
    · have hp := parseSmartStr_dec (natDigits (M / 10 ^ 6)) g false hDdig hgd hDne hgne hnh
      simp only [Bool.false_eq_true, if_false, List.nil_append] at hp
      rw [hfmt, htrim, map_dot_comma_split _ _ hDdig hgd, if_neg hx]
      simp only [List.nil_append]
      rw [hp, hcan 1, haa, if_neg hx]
      push_cast
      ring

theorem mem_padZeros (k : ℕ) (l : List Char) (c : Char) (h : c ∈ padZeros k l) :
    c = '0' ∨ c ∈ l := by
  rw [padZeros] at h
  rcases List.mem_append.mp h with h | h
  · exact Or.inl (List.eq_of_mem_replicate h)
  · exact Or.inr h

theorem mem_trimFixed (l : List Char) (c : Char) (h : c ∈ trimFixed l) : c ∈ l := by
  rw [trimFixed] at h
  by_cases hc : l.getLast? = some '0'
  · rw [if_pos hc] at h
    simp only [List.mem_reverse] at h
    have h2 : c ∈ l.reverse.dropWhile (fun c => c == '0') := by
      by_cases hh : (l.reverse.dropWhile (fun c => c == '0')).head? = some '.'
      · rw [if_pos hh] at h
        exact List.Sublist.mem h (List.tail_sublist _)
      · rw [if_neg hh] at h
        exact h
    rw [← List.mem_reverse]
    exact List.Sublist.mem h2 (List.dropWhile_sublist _)
  · rw [if_neg hc] at h
    exact h

theorem toFixedDigits_chars (x : ℚ) (k : ℕ) (c : Char) (h : c ∈ toFixedDigits x k) :
    c.isDigit = true ∨ c = '.' := by
  rw [toFixedDigits] at h
  simp only [List.mem_append, List.mem_cons] at h
  rcases h with h | h | h
  · exact Or.inl (mem_natDigits_isDigit _ c h)
  · exact Or.inr h
  · rcases mem_padZeros _ _ _ h with h | h
    · exact Or.inl (by rw [h]; decide)
    · exact Or.inl (mem_natDigits_isDigit _ c h)

/-- Every character of a `String(number)` rendering is a digit, `'.'` or `'-'`. -/
theorem jsStr_chars (q : ℚ) (c : Char) (h : c ∈ (jsStr q).data) :
    c.isDigit = true ∨ c = '.' ∨ c = '-' := by
  rw [jsStr] at h
  simp only [List.mem_append] at h
  rcases h with h | h
  · split at h
    · simp at h
      exact Or.inr (Or.inr h)
    · simp at h
  · rcases hd : decExp? (if q < 0 then -q else q) with _ | k
    · simp only [hd] at h
      have h2 := mem_trimFixed _ _ h
      rcases toFixedDigits_chars _ _ _ h2 with h3 | h3
      · exact Or.inl h3
      · exact Or.inr (Or.inl h3)
    · simp only [hd] at h
      rw [List.mem_append] at h
      rcases h with h | h
      · exact Or.inl (mem_natDigits_isDigit _ c h)
      · by_cases hk : k = 0
        · rw [if_pos hk] at h
          simp at h
        · rw [if_neg hk] at h
          rcases List.mem_cons.mp h with h | h
          · exact Or.inr (Or.inl h)
          · rcases mem_padZeros _ _ _ h with h | h
            · exact Or.inl (by rw [h]; decide)
            · exact Or.inl (mem_natDigits_isDigit _ c h)

theorem dotDecimalStr_jsStr (q : ℚ) : dotDecimalStr (jsStr q) = true := by
  rw [dotDecimalStr, List.all_eq_true]
  intro c hc
  rcases jsStr_chars q c hc with h | h | h
  · simp [h]
  · simp [h]
  · simp [h]

/-- The computed export fields are either empty (zero value) or `String(...)`
renderings, hence always plain '.'-decimal strings. -/
theorem dotDecimalStr_opt (v : ℚ) :
    dotDecimalStr (if v ≠ 0 then jsStr v else "") = true := by
  split
  · exact dotDecimalStr_jsStr _
  · decide

/-- C6 (amended): for every input text `t`, writing `x = parseSmartNumber(t)`
(variant 1), if `x` has at most 6 decimals (`x.den ∣ 10 ^ 6`) and the canonical
`formatForInput` rendering of `x` does not match the thousands heuristic
(`heuristicTrips x = false`), then parsing the rendering returns `x` again:
`parse(render(parse(t))) = parse(t)`. The unrestricted idempotence claim is
false: see `parse_format_roundtrip_counterexample`. -/
theorem parse_format_roundtrip (t : String)
    (hden : (V1.parseSmartStr t).den ∣ 10 ^ 6)
    (hh : V1.heuristicTrips (V1.parseSmartStr t) = false) :
    V1.parseSmartStr (V1.formatForInput (.num (V1.parseSmartStr t))) =
      V1.parseSmartStr t :=
  parse_format_num (V1.parseSmartStr t) hden hh

/-- Witness for `parse_format_roundtrip` at the text "1,5". -/
theorem parse_format_roundtrip_witness :
    ((V1.parseSmartStr "1,5").den ∣ 10 ^ 6 ∧
      V1.heuristicTrips (V1.parseSmartStr "1,5") = false) ∧
    V1.parseSmartStr (V1.formatForInput (.num (V1.parseSmartStr "1,5"))) =
      V1.parseSmartStr "1,5" :=
  ⟨⟨by decide, by decide⟩, parse_format_roundtrip "1,5" (by decide) (by decide)⟩

/-- C6 counterexample: "1.2340" parses to 1.234 (one dot with four fractional
digits, so the dot is the decimal separator), its canonical rendering is
"1,234", and re-parsing that rendering matches the thousands heuristic, giving
1234 ≠ 1.234. -/
theorem parse_format_roundtrip_counterexample :
    V1.parseSmartStr "1.2340" = mkRat 1234 1000 ∧
    V1.formatForInput (.num (V1.parseSmartStr "1.2340")) = "1,234" ∧
    V1.parseSmartStr (V1.formatForInput (.num (V1.parseSmartStr "1.2340"))) = 1234 ∧
    V1.parseSmartStr (V1.formatForInput (.num (V1.parseSmartStr "1.2340"))) ≠
      V1.parseSmartStr "1.2340" := by
  refine ⟨by decide, by decide, by decide, by decide⟩

/-- C8 (amended): the two variants' parsers agree on numeric pass-through, on
canonically signed digit strings, and on signed decimal-comma literals
`d1 "," d2` that do not match variant 1's thousands heuristic; the unrestricted
equivalence is false — see `parser_equivalence_counterexample`. -/
theorem parser_equivalence (d1 d2 : List Char) (neg : Bool)
    (h1 : ∀ c ∈ d1, c.isDigit = true) (h2 : ∀ c ∈ d2, c.isDigit = true)
    (hd1 : d1 ≠ []) (hd2 : d2 ≠ [])
    (hnh : ¬(d2.length = 3 ∧ d1.length ≤ 3)) :
    (∀ q : ℚ, V1.parseSmartNumber (.num q) = V2.toNumber (.num q)) ∧
    V1.parseSmartNumber (.str (String.mk ((if neg then ['-'] else []) ++ d1))) =
      V2.toNumber (.str (String.mk ((if neg then ['-'] else []) ++ d1))) ∧
    V1.parseSmartNumber
        (.str (String.mk ((if neg then ['-'] else []) ++ (d1 ++ ',' :: d2)))) =
      V2.toNumber
        (.str (String.mk ((if neg then ['-'] else []) ++ (d1 ++ ',' :: d2)))) := by
  have hnc1 : ',' ∉ d1 := fun hc => (isDigit_ne_punct _ (h1 _ hc)).2.1 rfl
  refine ⟨fun q => rfl, ?_, ?_⟩
  · rw [show V1.parseSmartNumber (.str (String.mk ((if neg then ['-'] else []) ++ d1))) =
        V1.parseSmartStr (String.mk ((if neg then ['-'] else []) ++ d1)) from rfl,
      parseSmartStr_int d1 neg h1 hd1]
    simp only [V2.toNumber]
    have hnc : ',' ∉ (if neg then ['-'] else []) ++ d1 := by
      intro hc
      rcases List.mem_append.mp hc with h | h
      · cases neg with
        | false => simp at h
        | true => simp at h
      · exact hnc1 h
    rw [replaceFirst_no_occ _ _ _ hnc, jsNumber_int d1 neg h1 hd1]
  · rw [show V1.parseSmartNumber
          (.str (String.mk ((if neg then ['-'] else []) ++ (d1 ++ ',' :: d2)))) =
        V1.parseSmartStr (String.mk ((if neg then ['-'] else []) ++ (d1 ++ ',' :: d2)))
        from rfl,
      parseSmartStr_dec d1 d2 neg h1 h2 hd1 hd2 hnh]
    simp only [V2.toNumber]
    have hrf : replaceFirst ((if neg then ['-'] else []) ++ (d1 ++ ',' :: d2)) ',' '.' =
        (if neg then ['-'] else []) ++ (d1 ++ '.' :: d2) := by
      cases neg with
      | false =>
        simp only [Bool.false_eq_true, if_false, List.nil_append]
        exact replaceFirst_append_cons d1 d2 ',' '.' hnc1
      | true =>
        simp only [eq_self_iff_true, if_true, List.singleton_append]
        simp only [replaceFirst, if_neg (show ¬('-' = ',') by decide)]
        rw [replaceFirst_append_cons d1 d2 ',' '.' hnc1]
    rw [hrf, jsNumber_dec d1 d2 neg h1 h2 hd1]

/-- Witness for `parser_equivalence` at `d1 = "7"`, `d2 = "5"` (text "7,5"). -/
theorem parser_equivalence_witness :
    ((∀ c ∈ ['7'], c.isDigit = true) ∧ (∀ c ∈ ['5'], c.isDigit = true) ∧
      (['7'] : List Char) ≠ [] ∧ (['5'] : List Char) ≠ [] ∧
      ¬((['5'] : List Char).length = 3 ∧ (['7'] : List Char).length ≤ 3)) ∧
    V1.parseSmartNumber
        (.str (String.mk ((if false then ['-'] else []) ++ (['7'] ++ ',' :: ['5'])))) =
      V2.toNumber
        (.str (String.mk ((if false then ['-'] else []) ++ (['7'] ++ ',' :: ['5'])))) :=
  ⟨⟨by decide, by decide, by decide, by decide, by decide⟩,
    (parser_equivalence ['7'] ['5'] false (by decide) (by decide) (by decide) (by decide)
      (by decide)).2.2⟩

/-- C8 counterexample: on "3.856" variant 1's thousands heuristic gives 3856
while variant 2's `toNumber` gives 3.856. -/
theorem parser_equivalence_counterexample :
    V1.parseSmartNumber (.str "3.856") = 3856 ∧
    V2.toNumber (.str "3.856") = mkRat 3856 1000 ∧
    V1.parseSmartNumber (.str "3.856") ≠ V2.toNumber (.str "3.856") := by
  refine ⟨by decide, by decide, by decide⟩

/-- C9 (amended): every export row copies the raw `qty`, `unitPrice`,
`discountRate` and `vatRate` strings verbatim from the stored line (so these
fields keep whatever locale format was typed, e.g. a decimal comma), while the
four computed fields `unitNet`, `unitVatIncl`, `totalNet`, `totalVatIncl` are
always plain '.'-decimal serialisations (or empty when the value is 0). The
claim as stated — that every numeric field is '.'-decimal — is false: see
`buildExportRows_counterexample`. -/
theorem buildExportRows_dot_decimal (rows : List V1.Row) :
    ∀ e ∈ V1.buildExportRows rows,
      (dotDecimalStr e.unitNet = true ∧ dotDecimalStr e.unitVatIncl = true ∧
        dotDecimalStr e.totalNet = true ∧ dotDecimalStr e.totalVatIncl = true) ∧
      ∃ r ∈ rows, e.qty = r.qty ∧ e.unitPrice = r.unitPrice ∧
        e.discountRate = r.discountRate ∧ e.vatRate = r.vatRate := by
  intro e he
  rw [V1.buildExportRows, List.mem_map] at he
  obtain ⟨r, hr, he2⟩ := he
  subst he2
  exact ⟨⟨dotDecimalStr_opt _, dotDecimalStr_opt _, dotDecimalStr_opt _,
    dotDecimalStr_opt _⟩, r, hr, rfl, rfl, rfl, rfl⟩

/-- Witness for `buildExportRows_dot_decimal` on a one-row export whose stored
`unitPrice` is the comma-formatted "7,5". -/
theorem buildExportRows_dot_decimal_witness :
    (V1.buildExportRow ⟨"2024-01-01", "S", "F1", "mal", "2", "ad", "7,5", "0", "18"⟩ ∈
        V1.buildExportRows [⟨"2024-01-01", "S", "F1", "mal", "2", "ad", "7,5", "0", "18"⟩]) ∧
    ((dotDecimalStr (V1.buildExportRow
          ⟨"2024-01-01", "S", "F1", "mal", "2", "ad", "7,5", "0", "18"⟩).unitNet = true ∧
      dotDecimalStr (V1.buildExportRow
          ⟨"2024-01-01", "S", "F1", "mal", "2", "ad", "7,5", "0", "18"⟩).unitVatIncl = true ∧
      dotDecimalStr (V1.buildExportRow
          ⟨"2024-01-01", "S", "F1", "mal", "2", "ad", "7,5", "0", "18"⟩).totalNet = true ∧
      dotDecimalStr (V1.buildExportRow
          ⟨"2024-01-01", "S", "F1", "mal", "2", "ad", "7,5", "0", "18"⟩).totalVatIncl = true) ∧
      ∃ r ∈ [(⟨"2024-01-01", "S", "F1", "mal", "2", "ad", "7,5", "0", "18"⟩ : V1.Row)],
        (V1.buildExportRow
            ⟨"2024-01-01", "S", "F1", "mal", "2", "ad", "7,5", "0", "18"⟩).qty = r.qty ∧
        (V1.buildExportRow
            ⟨"2024-01-01", "S", "F1", "mal", "2", "ad", "7,5", "0", "18"⟩).unitPrice =
          r.unitPrice ∧
        (V1.buildExportRow
            ⟨"2024-01-01", "S", "F1", "mal", "2", "ad", "7,5", "0", "18"⟩).discountRate =
          r.discountRate ∧
        (V1.buildExportRow
            ⟨"2024-01-01", "S", "F1", "mal", "2", "ad", "7,5", "0", "18"⟩).vatRate =
          r.vatRate) :=
  ⟨List.mem_cons_self _ _,
    buildExportRows_dot_decimal _ _ (List.mem_cons_self _ _)⟩

/-- C9 counterexample: a stored line whose `unitPrice` is "7,5" is exported
with the comma kept verbatim, so that numeric field of the export row is not a
'.'-decimal string. -/
theorem buildExportRows_counterexample :
    (V1.buildExportRows [⟨"2024-01-01", "S", "F1", "mal", "2", "ad", "7,5", "0", "18"⟩]).map
        (fun e => e.unitPrice) = ["7,5"] ∧
    dotDecimalStr "7,5" = false := by
  refine ⟨rfl, by decide⟩

end SatinalmaUI
